import Mathlib

/-!
# Verification of the Path 1.2 pathfinder (path.c)

Shallow embedding of the core search of `path.c` (version 1.2): the board
model (`is_available`, `is_blocked`), the recursive backtracking step
(`path_iter`, whose inner move loop is `path_loop`), and the entry point
(`path_find`).  The C `int **table` is a row-major list of rows
(`table[y][x]`); C `int` arithmetic is modelled by `Int` (no overflow occurs
for the quantities involved); the compile-time `ENABLE_CHECK` switch is an
explicit `check : Bool` parameter (the shipped source has it set, i.e.
`check = true`); the optional `int *iter` counter is an `Option Int` threaded
through the recursion.
-/

/-- A set of coordinates (struct Coords). -/
structure Coords where
  x : Int
  y : Int
deriving DecidableEq, Repr

/-- Componentwise sum, as computed into `new_pos` in the C loops. -/
def Coords.add (p d : Coords) : Coords :=
  ⟨p.x + d.x, p.y + d.y⟩

/-- Componentwise negation of an offset (used to state closure of a move
table under reversal of direction). -/
def Coords.neg (d : Coords) : Coords :=
  ⟨-d.x, -d.y⟩

/-- The table of move-order markers, row-major: entry `y` is a row, entry
`x` of a row is the cell value `table[y][x]`. -/
abbrev Grid := List (List Int)

/-- Read `table[p.y][p.x]`; reads outside the list structure yield 0 (the
algorithm only reads cells after an explicit bounds check, see the checked
variants below). -/
def getCell (g : Grid) (p : Coords) : Int :=
  (g.getD p.y.toNat []).getD p.x.toNat 0

/-- Write `table[p.y][p.x] = v`; writes outside the list structure are
no-ops (the algorithm only writes cells after an explicit bounds check, see
the checked variants below). -/
def setCell (g : Grid) (p : Coords) (v : Int) : Grid :=
  g.set p.y.toNat ((g.getD p.y.toNat []).set p.x.toNat v)

/-- `is_available` from path.c: a position is available when it lies inside
the table bounds and its cell has never been occupied (value 0). -/
def is_available (g : Grid) (ts : Coords) (p : Coords) : Bool :=
  if p.x < 0 ∨ p.x ≥ ts.x ∨ p.y < 0 ∨ p.y ≥ ts.y then false
  else if getCell g p ≠ 0 then false
  else true

/-- `is_blocked` from path.c: scans the move table in order and reports
false on the first offset whose target is available; true when no offset
leads to an available position. -/
def is_blocked (g : Grid) (ts : Coords) (delta : List Coords) (p : Coords) : Bool :=
  match delta with
  | [] => true
  | d :: rest =>
    if is_available g ts (p.add d) then false
    else is_blocked g ts rest p

/-- The look-ahead scan of `path_iter` (the `ENABLE_CHECK` block): with the
candidate cell freshly marked (grid `g1`, new move count `m1`), the block
runs only while `m1 < x*y - 1` and rejects the placement on the first move
offset whose target is available yet boxed in.  The scan mutates nothing
before rejecting, so folding the guard and the first-hit loop into one
boolean is faithful. -/
def prune_test (ts : Coords) (delta : List Coords) (pos : Coords) (m1 : Int) (g1 : Grid) : Bool :=
  decide (m1 < ts.x * ts.y - 1) &&
    delta.any (fun d => is_available g1 ts (pos.add d) && is_blocked g1 ts delta (pos.add d))

mutual

/-- `path_iter` from path.c: one iteration of the pathfinder.  Returns the
C result flag (as a `Bool`), the table after the call, and the iteration
counter after the call. -/
def path_iter (check : Bool) (ts : Coords) (delta : List Coords) (pos : Coords)
    (moves : Int) (g : Grid) (it : Option Int) : Bool × Grid × Option Int :=
  if _h1 : moves ≥ ts.x * ts.y then (true, g, it.map (fun n => n + 1))
  else if _h2 : is_available g ts pos = false then (false, g, it.map (fun n => n + 1))
  else if _h3 : (check && prune_test ts delta pos (moves + 1) (setCell g pos (moves + 1))) = true then
    (false, setCell (setCell g pos (moves + 1)) pos 0, it.map (fun n => n + 1))
  else
    path_loop check ts delta pos (moves + 1) delta (setCell g pos (moves + 1)) (it.map (fun n => n + 1))
termination_by ((ts.x * ts.y + 1 - moves).toNat, 0)
decreasing_by
  apply Prod.Lex.left
  omega

/-- The move loop at the end of `path_iter`: tries each offset of the move
table in order from `pos` (the cell just marked, with `m` moves completed),
short-circuiting on the first success; when the scan is exhausted the cell
at `pos` is reset to 0 and the frame fails. -/
def path_loop (check : Bool) (ts : Coords) (delta : List Coords) (pos : Coords)
    (m : Int) (scan : List Coords) (g : Grid) (it : Option Int) : Bool × Grid × Option Int :=
  match scan with
  | [] => (false, setCell g pos 0, it)
  | d :: rest =>
    match path_iter check ts delta (pos.add d) m g it with
    | (true, g2, it2) => (true, g2, it2)
    | (false, g2, it2) => path_loop check ts delta pos m rest g2 it2
termination_by ((ts.x * ts.y + 1 - m).toNat, scan.length + 1)
decreasing_by
  · apply Prod.Lex.right
    simp only [List.length_cons]
    omega
  · apply Prod.Lex.right
    simp only [List.length_cons]
    omega

end

/-- The reset loop at the start of `path_find`: `for i<y, for j<x:
table[i][j] = 0`. -/
def resetGrid (g : Grid) (ts : Coords) : Grid :=
  (List.range ts.y.toNat).foldl
    (fun acc (i : Nat) =>
      (List.range ts.x.toNat).foldl
        (fun acc2 (j : Nat) => setCell acc2 ⟨(j : Int), (i : Int)⟩ 0) acc)
    g

/-- `path_find` from path.c: zeroes the table, zeroes the iteration counter
when present, and starts the first move.  The `check` parameter models the
compile-time `ENABLE_CHECK` switch (true in the shipped source). -/
def path_find (check : Bool) (ts : Coords) (delta : List Coords) (pos : Coords)
    (g : Grid) (it : Option Int) : Bool × Grid × Option Int :=
  path_iter check ts delta pos 0 (resetGrid g ts) (it.map (fun _ => 0))

/-- The default set of legal moves (the `delta[]` array): the 8 knight
moves. -/
def knightTable : List Coords :=
  [⟨1, 2⟩, ⟨2, 1⟩, ⟨-1, 2⟩, ⟨-2, 1⟩, ⟨1, -2⟩, ⟨2, -1⟩, ⟨-1, -2⟩, ⟨-2, -1⟩]

/-- A grid of dimensions `ts` holding all zeroes. -/
def zerosGrid (ts : Coords) : Grid :=
  List.replicate ts.y.toNat (List.replicate ts.x.toNat 0)

/-- The caller contract of path.c: the table really has the dimensions
passed alongside it (`ts.y` rows of `ts.x` entries each). -/
def WF (g : Grid) (ts : Coords) : Prop :=
  g.length = ts.y.toNat ∧ ∀ r ∈ g, r.length = ts.x.toNat

/-- A position lies inside the table bounds. -/
def InB (ts : Coords) (p : Coords) : Prop :=
  0 ≤ p.x ∧ p.x < ts.x ∧ 0 ≤ p.y ∧ p.y < ts.y

/-- A move table is closed under negation of its offsets (true of the
default knight table). -/
def SymTable (delta : List Coords) : Prop :=
  ∀ d ∈ delta, Coords.neg d ∈ delta

/-- The cells of the board, as a finite set of (x, y) pairs. -/
def boardSet (ts : Coords) : Finset (Int × Int) :=
  Finset.Icc 0 (ts.x - 1) ×ˢ Finset.Icc 0 (ts.y - 1)

/-- The currently occupied (nonzero) cells of the board. -/
def markedSet (g : Grid) (ts : Coords) : Finset (Int × Int) :=
  (boardSet ts).filter (fun c => getCell g ⟨c.1, c.2⟩ ≠ 0)

/-- The state invariant of the search: `m` moves have been completed, the
markers `1..m` each occupy exactly one in-bounds cell, no other cell is
marked, and consecutive markers are one move-table offset apart. -/
structure SearchInv (ts : Coords) (delta : List Coords) (g : Grid) (m : Int) : Prop where
  wf : WF g ts
  nonneg : 0 ≤ m
  card : (markedSet g ts).card = m.toNat
  uniq : ∀ j : Int, 1 ≤ j → j ≤ m → ∃! c : Coords, InB ts c ∧ getCell g c = j
  range : ∀ c : Coords, InB ts c → getCell g c ≠ 0 → 1 ≤ getCell g c ∧ getCell g c ≤ m
  link : ∀ j : Int, 1 ≤ j → j + 1 ≤ m → ∀ c c' : Coords, InB ts c → InB ts c' →
    getCell g c = j → getCell g c' = j + 1 → ∃ d ∈ delta, c' = c.add d

/-- The counting part of the search invariant: exactly `m` cells are
marked. -/
structure CountInv (ts : Coords) (g : Grid) (m : Int) : Prop where
  wf : WF g ts
  nonneg : 0 ≤ m
  card : (markedSet g ts).card = m.toNat

/-- Position `q` is a legal continuation of the path recorded in `g`: either
no move has been made yet, or `q` is one move-table offset away from the
cell holding the latest marker `m`. -/
def NextAt (g : Grid) (ts : Coords) (delta : List Coords) (m : Int) (q : Coords) : Prop :=
  m = 0 ∨ ∃ p d, InB ts p ∧ getCell g p = m ∧ d ∈ delta ∧ q = p.add d

/-- The grid describes a Hamiltonian path from `start`: every in-bounds cell
holds a move number in `1..x*y`, each such number occupies exactly one cell,
the start cell holds 1, and consecutive numbers sit one move-table offset
apart. -/
def HamPath (g : Grid) (ts : Coords) (delta : List Coords) (start : Coords) : Prop :=
  (∀ j : Int, 1 ≤ j → j ≤ ts.x * ts.y → ∃! c : Coords, InB ts c ∧ getCell g c = j) ∧
  getCell g start = 1 ∧
  (∀ c : Coords, InB ts c → 1 ≤ getCell g c ∧ getCell g c ≤ ts.x * ts.y) ∧
  (∀ j : Int, 1 ≤ j → j + 1 ≤ ts.x * ts.y → ∀ c c' : Coords, InB ts c → InB ts c' →
    getCell g c = j → getCell g c' = j + 1 → ∃ d ∈ delta, c' = c.add d)

/-- Declarative mirror of a successful run of `path_iter` from state
`(g, moves, q)`: either enough moves are already done, or `q` can be
occupied (passing the availability check and, when `check` is set, the
look-ahead test) and some move-table offset leads on to a completion.  The
constructors quote the exact guards of `path_iter`; crucially, they depend
on the move table only through membership (`d ∈ delta` and the `∃`-style
scans), not through its order. -/
inductive Completes (check : Bool) (ts : Coords) (delta : List Coords) :
    Grid → Int → Coords → Prop where
  | done : ∀ g moves q, moves ≥ ts.x * ts.y → Completes check ts delta g moves q
  | step : ∀ g moves q d, ¬ moves ≥ ts.x * ts.y → is_available g ts q = true →
      (check && prune_test ts delta q (moves + 1) (setCell g q (moves + 1))) = false →
      d ∈ delta →
      Completes check ts delta (setCell g q (moves + 1)) (moves + 1) (q.add d) →
      Completes check ts delta g moves q

/-- Over-approximation of the states at which the recursive step is invoked
during a search from `start`: the initial call on the reset grid, and, from
any reached state whose guards pass, the call on any move-table neighbour
of the cell just marked.  (By the restoration property, every child of a
frame is called on exactly the grid obtained by marking that frame's cell,
so every state actually visited by `path_iter` is of this shape.) -/
inductive ReachState (ts : Coords) (delta : List Coords) (start : Coords) :
    Grid → Int → Coords → Prop where
  | init : ReachState ts delta start (zerosGrid ts) 0 start
  | step : ∀ g m q d, ReachState ts delta start g m q → ¬ m ≥ ts.x * ts.y →
      is_available g ts q = true → d ∈ delta →
      ReachState ts delta start (setCell g q (m + 1)) (m + 1) (q.add d)

/-! ## Checked (Option-valued) variants

The same functions with every table access going through `Option`-valued
indexing: a read or write outside the list structure yields `none` instead
of a default.  `path_iterC = some (path_iter ...)` under the caller contract
`WF` is the formal statement that the out-of-range branch of every access is
unreachable. -/

/-- Checked read of `table[p.y][p.x]`. -/
def getCellC (g : Grid) (p : Coords) : Option Int :=
  if p.y < 0 ∨ p.x < 0 then none
  else (g[p.y.toNat]?).bind (fun row => row[p.x.toNat]?)

/-- Checked write of `table[p.y][p.x] = v`. -/
def setCellC (g : Grid) (p : Coords) (v : Int) : Option Grid :=
  if p.y < 0 ∨ p.x < 0 then none
  else (g[p.y.toNat]?).bind (fun row =>
    if p.x.toNat < row.length then some (g.set p.y.toNat (row.set p.x.toNat v)) else none)

/-- `is_available` with checked accesses: the bounds test short-circuits
before any cell is read, exactly as in the C source. -/
def is_availableC (g : Grid) (ts : Coords) (p : Coords) : Option Bool :=
  if p.x < 0 ∨ p.x ≥ ts.x ∨ p.y < 0 ∨ p.y ≥ ts.y then some false
  else (getCellC g p).bind (fun v => if v ≠ 0 then some false else some true)

/-- `is_blocked` with checked accesses. -/
def is_blockedC (g : Grid) (ts : Coords) (delta : List Coords) (p : Coords) : Option Bool :=
  match delta with
  | [] => some true
  | d :: rest =>
    (is_availableC g ts (p.add d)).bind (fun a =>
      if a then some false else is_blockedC g ts rest p)

/-- The look-ahead scan of the `ENABLE_CHECK` block with checked accesses. -/
def prune_scanC (g1 : Grid) (ts : Coords) (delta : List Coords) (pos : Coords) :
    List Coords → Option Bool
  | [] => some false
  | d :: rest =>
    (is_availableC g1 ts (pos.add d)).bind (fun a =>
      if a then
        (is_blockedC g1 ts delta (pos.add d)).bind (fun b =>
          if b then some true else prune_scanC g1 ts delta pos rest)
      else prune_scanC g1 ts delta pos rest)

/-- The guarded look-ahead test with checked accesses. -/
def prune_testC (ts : Coords) (delta : List Coords) (pos : Coords) (m1 : Int) (g1 : Grid) :
    Option Bool :=
  if m1 < ts.x * ts.y - 1 then prune_scanC g1 ts delta pos delta else some false

mutual

/-- `path_iter` with checked accesses. -/
def path_iterC (check : Bool) (ts : Coords) (delta : List Coords) (pos : Coords)
    (moves : Int) (g : Grid) (it : Option Int) : Option (Bool × Grid × Option Int) :=
  if _h1 : moves ≥ ts.x * ts.y then some (true, g, it.map (fun n => n + 1))
  else
    (is_availableC g ts pos).bind (fun a =>
      if _h2 : a = false then some (false, g, it.map (fun n => n + 1))
      else
        (setCellC g pos (moves + 1)).bind (fun g1 =>
          (prune_testC ts delta pos (moves + 1) g1).bind (fun pt =>
            if _h3 : (check && pt) = true then
              (setCellC g1 pos 0).bind (fun g0 =>
                some (false, g0, it.map (fun n => n + 1)))
            else
              path_loopC check ts delta pos (moves + 1) delta g1
                (it.map (fun n => n + 1)))))
termination_by ((ts.x * ts.y + 1 - moves).toNat, 0)
decreasing_by
  apply Prod.Lex.left
  omega

/-- The move loop of `path_iter` with checked accesses. -/
def path_loopC (check : Bool) (ts : Coords) (delta : List Coords) (pos : Coords)
    (m : Int) (scan : List Coords) (g : Grid) (it : Option Int) :
    Option (Bool × Grid × Option Int) :=
  match scan with
  | [] => (setCellC g pos 0).bind (fun g0 => some (false, g0, it))
  | d :: rest =>
    (path_iterC check ts delta (pos.add d) m g it).bind (fun r =>
      match r with
      | (true, g2, it2) => some (true, g2, it2)
      | (false, g2, it2) => path_loopC check ts delta pos m rest g2 it2)
termination_by ((ts.x * ts.y + 1 - m).toNat, scan.length + 1)
decreasing_by
  · apply Prod.Lex.right
    simp only [List.length_cons]
    omega
  · apply Prod.Lex.right
    simp only [List.length_cons]
    omega

end

/-- The reset loop with checked accesses. -/
def resetGridC (g : Grid) (ts : Coords) : Option Grid :=
  (List.range ts.y.toNat).foldlM
    (fun acc (i : Nat) =>
      (List.range ts.x.toNat).foldlM
        (fun acc2 (j : Nat) => setCellC acc2 ⟨(j : Int), (i : Int)⟩ 0) acc)
    g

/-- `path_find` with checked accesses. -/
def path_findC (check : Bool) (ts : Coords) (delta : List Coords) (pos : Coords)
    (g : Grid) (it : Option Int) : Option (Bool × Grid × Option Int) :=
  (resetGridC g ts).bind (fun g0 =>
    path_iterC check ts delta pos 0 g0 (it.map (fun _ => 0)))

/-! ## Basic lemmas about cells and grids -/

lemma list_set_of_getElem? {α : Type} {l : List α} {n : Nat} {a : α}
    (h : l[n]? = some a) : l.set n a = l := by
  apply List.ext_getElem?
  intro m
  by_cases hm : n = m
  · subst hm
    rw [List.getElem?_set_self']
    rw [h]
    simp
  · rw [List.getElem?_set_ne hm]

lemma list_set_getD_self {α : Type} (l : List α) (n : Nat) (d : α) :
    l.set n (l.getD n d) = l := by
  rcases Nat.lt_or_ge n l.length with h | h
  · apply list_set_of_getElem?
    rw [List.getD_eq_getElem?_getD, List.getElem?_eq_getElem h]
    rfl
  · exact List.set_eq_of_length_le h

lemma length_setCell (g : Grid) (p : Coords) (v : Int) :
    (setCell g p v).length = g.length := by
  simp [setCell]

lemma setCell_oob {g : Grid} {p : Coords} (v : Int) (h : g.length ≤ p.y.toNat) :
    setCell g p v = g :=
  List.set_eq_of_length_le h

lemma getD_row_of_lt {g : Grid} {n : Nat} (h : n < g.length) :
    g.getD n [] = g[n] := by
  rw [List.getD_eq_getElem?_getD, List.getElem?_eq_getElem h]
  rfl

lemma row_mem_of_lt {g : Grid} {n : Nat} (h : n < g.length) :
    g.getD n [] ∈ g := by
  rw [getD_row_of_lt h]
  exact List.getElem_mem h

lemma setCell_setCell (g : Grid) (p : Coords) (v w : Int) :
    setCell (setCell g p v) p w = setCell g p w := by
  rcases Nat.lt_or_ge p.y.toNat g.length with h | h
  · unfold setCell
    rw [List.getD_eq_getElem?_getD (g.set _ _), List.getElem?_set_eq_of_lt _ h]
    simp only [Option.getD_some]
    rw [List.set_set, List.set_set]
  · rw [setCell_oob v h]

lemma setCell_restore {g : Grid} {p : Coords} (h : getCell g p = 0) :
    setCell g p 0 = g := by
  rcases Nat.lt_or_ge p.y.toNat g.length with hy | hy
  · unfold setCell
    unfold getCell at h
    rcases Nat.lt_or_ge p.x.toNat (g.getD p.y.toNat []).length with hx | hx
    · rw [List.getD_eq_getElem?_getD _ p.x.toNat, List.getElem?_eq_getElem hx] at h
      simp only [Option.getD_some] at h
      have hsome : (g.getD p.y.toNat [])[p.x.toNat]? = some 0 := by
        rw [List.getElem?_eq_getElem hx, h]
      rw [list_set_of_getElem? hsome]
      exact list_set_getD_self g p.y.toNat []
    · rw [List.set_eq_of_length_le hx]
      exact list_set_getD_self g p.y.toNat []
  · exact setCell_oob 0 hy

lemma getCell_setCell_self {g : Grid} {ts : Coords} {p : Coords} (v : Int)
    (hw : WF g ts) (hp : InB ts p) : getCell (setCell g p v) p = v := by
  obtain ⟨hlen, hrow⟩ := hw
  obtain ⟨hx0, hx1, hy0, hy1⟩ := hp
  have hy : p.y.toNat < g.length := by omega
  have hxr : p.x.toNat < (g.getD p.y.toNat []).length := by
    rw [hrow _ (row_mem_of_lt hy)]
    omega
  unfold getCell setCell
  rw [List.getD_eq_getElem?_getD (g.set _ _), List.getElem?_set_eq_of_lt _ hy]
  simp only [Option.getD_some]
  rw [List.getD_eq_getElem?_getD _ p.x.toNat, List.getElem?_set_eq_of_lt _ hxr]
  simp

lemma getCell_setCell_ne {g : Grid} {p q : Coords} (v : Int)
    (h : p.y.toNat ≠ q.y.toNat ∨ p.x.toNat ≠ q.x.toNat) :
    getCell (setCell g p v) q = getCell g q := by
  by_cases hy : p.y.toNat = q.y.toNat
  · have hx : p.x.toNat ≠ q.x.toNat := by
      rcases h with h | h
      · exact absurd hy h
      · exact h
    rcases Nat.lt_or_ge p.y.toNat g.length with hlt | hge
    · unfold getCell setCell
      rw [← hy]
      rw [List.getD_eq_getElem?_getD (g.set _ _), List.getElem?_set_eq_of_lt _ hlt]
      simp only [Option.getD_some]
      rw [List.getD_eq_getElem?_getD _ q.x.toNat, List.getElem?_set_ne hx]
      rw [List.getD_eq_getElem?_getD (List.getD g p.y.toNat []) q.x.toNat]
    · rw [setCell_oob v hge]
  · unfold getCell setCell
    rw [List.getD_eq_getElem?_getD (g.set _ _), List.getElem?_set_ne hy]
    rw [List.getD_eq_getElem?_getD g q.y.toNat]

lemma WF_setCell {g : Grid} {ts : Coords} (p : Coords) (v : Int)
    (hw : WF g ts) : WF (setCell g p v) ts := by
  rcases Nat.lt_or_ge p.y.toNat g.length with hlt | hge
  · obtain ⟨hlen, hrow⟩ := hw
    constructor
    · rw [length_setCell]
      exact hlen
    · intro r hr
      unfold setCell at hr
      rcases List.mem_or_eq_of_mem_set hr with hmem | heq
      · exact hrow _ hmem
      · subst heq
        rw [List.length_set]
        exact hrow _ (row_mem_of_lt hlt)
  · rw [setCell_oob v hge]
    exact hw

lemma WF_zerosGrid (ts : Coords) : WF (zerosGrid ts) ts := by
  constructor
  · simp [zerosGrid]
  · intro r hr
    have := List.eq_of_mem_replicate hr
    subst this
    simp

lemma getCell_zerosGrid (ts p : Coords) : getCell (zerosGrid ts) p = 0 := by
  unfold getCell zerosGrid
  rw [List.getD_eq_getElem?_getD (List.replicate ts.y.toNat (List.replicate ts.x.toNat 0))
    p.y.toNat, List.getElem?_replicate]
  split
  · simp only [Option.getD_some]
    rw [List.getD_eq_getElem?_getD (List.replicate ts.x.toNat 0) p.x.toNat,
      List.getElem?_replicate]
    split
    · simp
    · simp
  · simp

/-! ## Characterizations of the board-model queries -/

lemma is_available_iff (g : Grid) (ts p : Coords) :
    is_available g ts p = true ↔ InB ts p ∧ getCell g p = 0 := by
  unfold is_available InB
  by_cases h1 : p.x < 0 ∨ p.x ≥ ts.x ∨ p.y < 0 ∨ p.y ≥ ts.y
  · rw [if_pos h1]
    constructor
    · intro h
      simp at h
    · rintro ⟨⟨a, b, c, d⟩, -⟩
      omega
  · rw [if_neg h1]
    push_neg at h1
    by_cases h2 : getCell g p ≠ 0
    · rw [if_pos h2]
      constructor
      · intro h
        simp at h
      · rintro ⟨-, h⟩
        exact absurd h h2
    · rw [if_neg h2]
      push_neg at h2
      constructor
      · intro _
        refine ⟨⟨?_, ?_, ?_, ?_⟩, h2⟩ <;> omega
      · intro _
        rfl

lemma is_available_false_iff (g : Grid) (ts p : Coords) :
    is_available g ts p = false ↔ ¬ (InB ts p ∧ getCell g p = 0) := by
  rw [← is_available_iff]
  simp

lemma is_blocked_iff (g : Grid) (ts : Coords) (delta : List Coords) (p : Coords) :
    is_blocked g ts delta p = true ↔
      ∀ d ∈ delta, is_available g ts (p.add d) = false := by
  induction delta with
  | nil => simp [is_blocked]
  | cons d rest ih =>
    unfold is_blocked
    by_cases h : is_available g ts (p.add d) = true
    · rw [if_pos h]
      constructor
      · intro hf
        simp at hf
      · intro hall
        have := hall d (List.mem_cons_self d rest)
        rw [h] at this
        simp at this
    · rw [if_neg h]
      rw [ih]
      simp only [Bool.not_eq_true] at h
      constructor
      · intro hall e he
        rcases List.mem_cons.mp he with rfl | he
        · exact h
        · exact hall e he
      · intro hall e he
        exact hall e (List.mem_cons_of_mem d he)

/-! ## The reset loop produces the all-zero grid -/

lemma zeroRow_length (n : Nat) (r : List Int) :
    ((List.range n).foldl (fun a j => a.set j 0) r).length = r.length := by
  induction n with
  | zero => rfl
  | succ n ih =>
    rw [List.range_succ, List.foldl_append]
    simp [ih]

lemma zeroRow_getElem? (n : Nat) (r : List Int) (k : Nat) :
    ((List.range n).foldl (fun a j => a.set j 0) r)[k]? =
      if k < n ∧ k < r.length then some 0 else r[k]? := by
  induction n with
  | zero => simp
  | succ n ih =>
    rw [List.range_succ, List.foldl_append]
    simp only [List.foldl_cons, List.foldl_nil]
    by_cases hk : n = k
    · subst hk
      rcases Nat.lt_or_ge n r.length with hlen | hlen
      · have hlen' : n < ((List.range n).foldl (fun a j => a.set j 0) r).length := by
          rw [zeroRow_length]
          exact hlen
        rw [List.getElem?_set_eq_of_lt _ hlen']
        rw [if_pos ⟨Nat.lt_succ_self n, hlen⟩]
      · have hlen' : ((List.range n).foldl (fun a j => a.set j 0) r).length ≤ n := by
          rw [zeroRow_length]
          exact hlen
        rw [List.set_eq_of_length_le hlen', ih]
        rw [if_neg (by omega), if_neg (by omega)]
    · rw [List.getElem?_set_ne hk, ih]
      by_cases hc : k < n ∧ k < r.length
      · rw [if_pos hc, if_pos ⟨by omega, hc.2⟩]
      · rw [if_neg hc, if_neg (by omega)]

lemma zeroRow_eq_replicate {r : List Int} {n : Nat} (h : r.length = n) :
    (List.range n).foldl (fun a j => a.set j 0) r = List.replicate n 0 := by
  apply List.ext_getElem?
  intro k
  rw [zeroRow_getElem?, List.getElem?_replicate]
  by_cases hk : k < n
  · rw [if_pos ⟨hk, by omega⟩, if_pos hk]
  · rw [if_neg (by omega), if_neg hk]
    rw [List.getElem?_eq_none_iff.mpr (by omega)]

lemma innerReset_eq (acc : Grid) (i : Nat) (n : Nat) :
    (List.range n).foldl (fun a2 (j : Nat) => setCell a2 ⟨(j : Int), (i : Int)⟩ 0) acc =
      acc.set i ((List.range n).foldl (fun a j => a.set j 0) (acc.getD i [])) := by
  induction n with
  | zero =>
    rw [List.range_zero, List.foldl_nil, List.foldl_nil]
    exact (list_set_getD_self acc i []).symm
  | succ n ih =>
    rw [List.range_succ, List.foldl_append, List.foldl_append]
    simp only [List.foldl_cons, List.foldl_nil]
    rw [ih]
    rcases Nat.lt_or_ge i acc.length with hlt | hge
    · unfold setCell
      simp only [Int.toNat_ofNat]
      rw [List.getD_eq_getElem?_getD (acc.set i _) i, List.getElem?_set_eq_of_lt _ hlt]
      simp only [Option.getD_some]
      rw [List.set_set]
    · have h1 : acc.set i ((List.range n).foldl (fun a j => a.set j 0) (acc.getD i [])) = acc :=
        List.set_eq_of_length_le hge
      rw [h1]
      have h2 : setCell acc ⟨(n : Int), (i : Int)⟩ 0 = acc := by
        apply setCell_oob
        simp only [Int.toNat_ofNat]
        exact hge
      rw [h2]
      exact (List.set_eq_of_length_le hge).symm

lemma outerReset_length (x : Nat) (acc : Grid) (n : Nat) :
    ((List.range n).foldl
      (fun a (i : Nat) => (List.range x).foldl (fun a2 (j : Nat) => setCell a2 ⟨(j : Int), (i : Int)⟩ 0) a)
      acc).length = acc.length := by
  induction n with
  | zero => rfl
  | succ n ih =>
    rw [List.range_succ, List.foldl_append]
    simp only [List.foldl_cons, List.foldl_nil]
    rw [innerReset_eq]
    simp [ih]

lemma outerReset_getElem? (x : Nat) (acc : Grid) (n : Nat) : ∀ k : Nat,
    ((List.range n).foldl
      (fun a (i : Nat) => (List.range x).foldl (fun a2 (j : Nat) => setCell a2 ⟨(j : Int), (i : Int)⟩ 0) a)
      acc)[k]? =
      if k < n ∧ k < acc.length then
        some ((List.range x).foldl (fun a j => a.set j 0) (acc.getD k []))
      else acc[k]? := by
  induction n with
  | zero => simp
  | succ n ih =>
    intro k
    rw [List.range_succ, List.foldl_append]
    simp only [List.foldl_cons, List.foldl_nil]
    rw [innerReset_eq]
    have hrow : ((List.range n).foldl
        (fun a (i : Nat) => (List.range x).foldl (fun a2 (j : Nat) => setCell a2 ⟨(j : Int), (i : Int)⟩ 0) a)
        acc).getD n [] = acc.getD n [] := by
      rw [List.getD_eq_getElem?_getD _ n, ih n, List.getD_eq_getElem?_getD acc n]
      rw [if_neg (by omega)]
    rw [hrow]
    by_cases hk : n = k
    · subst hk
      rcases Nat.lt_or_ge n acc.length with hlt | hge
      · have hlt' : n < ((List.range n).foldl
            (fun a (i : Nat) => (List.range x).foldl (fun a2 (j : Nat) => setCell a2 ⟨(j : Int), (i : Int)⟩ 0) a)
            acc).length := by
          rw [outerReset_length]
          exact hlt
        rw [List.getElem?_set_eq_of_lt _ hlt']
        rw [if_pos ⟨Nat.lt_succ_self n, hlt⟩]
      · have hge' : ((List.range n).foldl
            (fun a (i : Nat) => (List.range x).foldl (fun a2 (j : Nat) => setCell a2 ⟨(j : Int), (i : Int)⟩ 0) a)
            acc).length ≤ n := by
          rw [outerReset_length]
          exact hge
        rw [List.set_eq_of_length_le hge', ih n]
        rw [if_neg (by omega), if_neg (by omega)]
    · rw [List.getElem?_set_ne hk, ih k]
      by_cases hc : k < n ∧ k < acc.length
      · rw [if_pos hc, if_pos ⟨by omega, hc.2⟩]
      · rw [if_neg hc, if_neg (by omega)]

lemma resetGrid_eq_zerosGrid {g : Grid} {ts : Coords} (hw : WF g ts) :
    resetGrid g ts = zerosGrid ts := by
  obtain ⟨hlen, hrow⟩ := hw
  apply List.ext_getElem?
  intro k
  unfold resetGrid zerosGrid
  rw [outerReset_getElem?, List.getElem?_replicate]
  by_cases hk : k < ts.y.toNat
  · rw [if_pos ⟨hk, by omega⟩, if_pos hk]
    have hkg : k < g.length := by omega
    rw [zeroRow_eq_replicate (hrow _ (row_mem_of_lt hkg))]
  · rw [if_neg (by omega), if_neg hk]
    rw [List.getElem?_eq_none_iff.mpr (by omega)]

/-! ## Stepping lemmas for the recursion -/

lemma pathIter_done {check : Bool} {ts : Coords} {delta : List Coords} {pos : Coords}
    {moves : Int} {g : Grid} {it : Option Int} (h : moves ≥ ts.x * ts.y) :
    path_iter check ts delta pos moves g it = (true, g, it.map (fun n => n + 1)) := by
  rw [path_iter, dif_pos h]

lemma pathIter_unavail {check : Bool} {ts : Coords} {delta : List Coords} {pos : Coords}
    {moves : Int} {g : Grid} {it : Option Int} (h1 : ¬ moves ≥ ts.x * ts.y)
    (h2 : is_available g ts pos = false) :
    path_iter check ts delta pos moves g it = (false, g, it.map (fun n => n + 1)) := by
  rw [path_iter, dif_neg h1, dif_pos h2]

lemma pathIter_prune {check : Bool} {ts : Coords} {delta : List Coords} {pos : Coords}
    {moves : Int} {g : Grid} {it : Option Int} (h1 : ¬ moves ≥ ts.x * ts.y)
    (h2 : is_available g ts pos = true)
    (h3 : (check && prune_test ts delta pos (moves + 1) (setCell g pos (moves + 1))) = true) :
    path_iter check ts delta pos moves g it =
      (false, setCell (setCell g pos (moves + 1)) pos 0, it.map (fun n => n + 1)) := by
  rw [path_iter, dif_neg h1, dif_neg (by simp [h2]), dif_pos h3]

lemma pathIter_go {check : Bool} {ts : Coords} {delta : List Coords} {pos : Coords}
    {moves : Int} {g : Grid} {it : Option Int} (h1 : ¬ moves ≥ ts.x * ts.y)
    (h2 : is_available g ts pos = true)
    (h3 : ¬ (check && prune_test ts delta pos (moves + 1) (setCell g pos (moves + 1))) = true) :
    path_iter check ts delta pos moves g it =
      path_loop check ts delta pos (moves + 1) delta (setCell g pos (moves + 1))
        (it.map (fun n => n + 1)) := by
  rw [path_iter, dif_neg h1, dif_neg (by simp [h2]), dif_neg h3]

lemma pathLoop_nil {check : Bool} {ts : Coords} {delta : List Coords} {pos : Coords}
    {m : Int} {g : Grid} {it : Option Int} :
    path_loop check ts delta pos m [] g it = (false, setCell g pos 0, it) := by
  rw [path_loop]

lemma pathLoop_cons_true {check : Bool} {ts : Coords} {delta : List Coords} {pos d : Coords}
    {rest : List Coords} {m : Int} {g g2 : Grid} {it it2 : Option Int}
    (hc : path_iter check ts delta (pos.add d) m g it = (true, g2, it2)) :
    path_loop check ts delta pos m (d :: rest) g it = (true, g2, it2) := by
  rw [path_loop, hc]

lemma pathLoop_cons_false {check : Bool} {ts : Coords} {delta : List Coords} {pos d : Coords}
    {rest : List Coords} {m : Int} {g g2 : Grid} {it it2 : Option Int}
    (hc : path_iter check ts delta (pos.add d) m g it = (false, g2, it2)) :
    path_loop check ts delta pos m (d :: rest) g it =
      path_loop check ts delta pos m rest g2 it2 := by
  rw [path_loop, hc]

/-! ## Failure restores the grid (backtracking undo) -/

lemma pathLoop_restore {check : Bool} {ts : Coords} {delta : List Coords} {pos : Coords}
    {m : Int} (scan : List Coords)
    (H : ∀ d ∈ scan, ∀ g it g2 it2,
      path_iter check ts delta (pos.add d) m g it = (false, g2, it2) → g2 = g) :
    ∀ g it g2 it2, path_loop check ts delta pos m scan g it = (false, g2, it2) →
      g2 = setCell g pos 0 := by
  induction scan with
  | nil =>
    intro g it g2 it2 h
    rw [pathLoop_nil] at h
    cases h
    rfl
  | cons d rest ihr =>
    intro g it g2 it2 h
    rcases hcall : path_iter check ts delta (pos.add d) m g it with ⟨b, gg, ii⟩
    cases b
    · rw [pathLoop_cons_false hcall] at h
      have hrest := ihr (fun e he => H e (List.mem_cons_of_mem d he)) gg ii g2 it2 h
      have hgg : gg = g := H d (List.mem_cons_self d rest) g it gg ii hcall
      rw [hrest, hgg]
    · rw [pathLoop_cons_true hcall] at h
      cases h

lemma pathIter_restore_aux : ∀ k : Nat, ∀ (check : Bool) (ts : Coords) (delta : List Coords)
    (pos : Coords) (moves : Int) (g : Grid) (it : Option Int) (g2 : Grid) (it2 : Option Int),
    (ts.x * ts.y + 1 - moves).toNat = k →
    path_iter check ts delta pos moves g it = (false, g2, it2) → g2 = g := by
  intro k
  induction k using Nat.strong_induction_on with
  | _ k ih =>
    intro check ts delta pos moves g it g2 it2 hk hcall
    by_cases h1 : moves ≥ ts.x * ts.y
    · rw [pathIter_done h1] at hcall
      cases hcall
    · by_cases h2 : is_available g ts pos = false
      · rw [pathIter_unavail h1 h2] at hcall
        cases hcall
        rfl
      · have h2' : is_available g ts pos = true := by
          rcases Bool.eq_false_or_eq_true (is_available g ts pos) with h | h
          · exact h
          · exact absurd h h2
        have hg0 : getCell g pos = 0 := ((is_available_iff g ts pos).mp h2').2
        by_cases h3 : (check && prune_test ts delta pos (moves + 1)
            (setCell g pos (moves + 1))) = true
        · rw [pathIter_prune h1 h2' h3] at hcall
          cases hcall
          rw [setCell_setCell]
          exact setCell_restore hg0
        · rw [pathIter_go h1 h2' h3] at hcall
          have hlt : (ts.x * ts.y + 1 - (moves + 1)).toNat < k := by omega
          have H : ∀ d ∈ delta, ∀ g' it' g2' it2',
              path_iter check ts delta (pos.add d) (moves + 1) g' it' = (false, g2', it2') →
              g2' = g' := by
            intro d _ g' it' g2' it2' hc
            exact ih _ hlt check ts delta (pos.add d) (moves + 1) g' it' g2' it2' rfl hc
          have := pathLoop_restore delta H _ _ _ _ hcall
          rw [this, setCell_setCell]
          exact setCell_restore hg0

lemma pathIter_restore {check : Bool} {ts : Coords} {delta : List Coords} {pos : Coords}
    {moves : Int} {g : Grid} {it : Option Int} {g2 : Grid} {it2 : Option Int}
    (h : path_iter check ts delta pos moves g it = (false, g2, it2)) : g2 = g :=
  pathIter_restore_aux _ check ts delta pos moves g it g2 it2 rfl h

/-! ## The search preserves the caller contract on dimensions -/

lemma pathLoop_WF {check : Bool} {ts : Coords} {delta : List Coords} {pos : Coords}
    {m : Int} (scan : List Coords)
    (H : ∀ d ∈ scan, ∀ g it, WF g ts →
      WF (path_iter check ts delta (pos.add d) m g it).2.1 ts) :
    ∀ g it, WF g ts → WF (path_loop check ts delta pos m scan g it).2.1 ts := by
  induction scan with
  | nil =>
    intro g it hw
    rw [pathLoop_nil]
    exact WF_setCell pos 0 hw
  | cons d rest ihr =>
    intro g it hw
    rcases hcall : path_iter check ts delta (pos.add d) m g it with ⟨b, gg, ii⟩
    have hgg : WF gg ts := by
      have := H d (List.mem_cons_self d rest) g it hw
      rw [hcall] at this
      exact this
    cases b
    · rw [pathLoop_cons_false hcall]
      exact ihr (fun e he => H e (List.mem_cons_of_mem d he)) gg ii hgg
    · rw [pathLoop_cons_true hcall]
      exact hgg

lemma pathIter_WF_aux : ∀ k : Nat, ∀ (check : Bool) (ts : Coords) (delta : List Coords)
    (pos : Coords) (moves : Int) (g : Grid) (it : Option Int),
    (ts.x * ts.y + 1 - moves).toNat = k → WF g ts →
    WF (path_iter check ts delta pos moves g it).2.1 ts := by
  intro k
  induction k using Nat.strong_induction_on with
  | _ k ih =>
    intro check ts delta pos moves g it hk hw
    by_cases h1 : moves ≥ ts.x * ts.y
    · rw [pathIter_done h1]
      exact hw
    · by_cases h2 : is_available g ts pos = false
      · rw [pathIter_unavail h1 h2]
        exact hw
      · have h2' : is_available g ts pos = true := by
          rcases Bool.eq_false_or_eq_true (is_available g ts pos) with h | h
          · exact h
          · exact absurd h h2
        by_cases h3 : (check && prune_test ts delta pos (moves + 1)
            (setCell g pos (moves + 1))) = true
        · rw [pathIter_prune h1 h2' h3]
          exact WF_setCell pos 0 (WF_setCell pos (moves + 1) hw)
        · rw [pathIter_go h1 h2' h3]
          have hlt : (ts.x * ts.y + 1 - (moves + 1)).toNat < k := by omega
          apply pathLoop_WF delta
          · intro d _ g' it' hw'
            exact ih _ hlt check ts delta (pos.add d) (moves + 1) g' it' rfl hw'
          · exact WF_setCell pos (moves + 1) hw

lemma pathIter_WF {check : Bool} {ts : Coords} {delta : List Coords} {pos : Coords}
    {moves : Int} {g : Grid} {it : Option Int} (hw : WF g ts) :
    WF (path_iter check ts delta pos moves g it).2.1 ts :=
  pathIter_WF_aux _ check ts delta pos moves g it rfl hw

lemma path_find_fail_zeros {check : Bool} {ts : Coords} {delta : List Coords} {pos : Coords}
    {g : Grid} {it : Option Int} (hw : WF g ts)
    (h : (path_find check ts delta pos g it).1 = false) :
    (path_find check ts delta pos g it).2.1 = zerosGrid ts := by
  have hz := resetGrid_eq_zerosGrid hw
  unfold path_find at h ⊢
  have heta : path_iter check ts delta pos 0 (resetGrid g ts) (it.map (fun _ => 0)) =
      ((path_iter check ts delta pos 0 (resetGrid g ts) (it.map (fun _ => 0))).1,
       (path_iter check ts delta pos 0 (resetGrid g ts) (it.map (fun _ => 0))).2.1,
       (path_iter check ts delta pos 0 (resetGrid g ts) (it.map (fun _ => 0))).2.2) := rfl
  rw [h] at heta
  exact (pathIter_restore heta).trans hz

lemma path_find_WF {check : Bool} {ts : Coords} {delta : List Coords} {pos : Coords}
    {g : Grid} {it : Option Int} (hw : WF g ts) :
    WF (path_find check ts delta pos g it).2.1 ts := by
  unfold path_find
  apply pathIter_WF
  rw [resetGrid_eq_zerosGrid hw]
  exact WF_zerosGrid ts

lemma path_find_grid_irrelevant {check : Bool} {ts : Coords} {delta : List Coords}
    {pos : Coords} {g g' : Grid} {it : Option Int} (hw : WF g ts) (hw' : WF g' ts) :
    path_find check ts delta pos g it = path_find check ts delta pos g' it := by
  unfold path_find
  rw [resetGrid_eq_zerosGrid hw, resetGrid_eq_zerosGrid hw']

lemma is_available_monotone {g : Grid} {ts : Coords} {p q : Coords} {v : Int}
    (hv : v ≠ 0) (hw : WF g ts) (hp : InB ts p)
    (h : is_available (setCell g p v) ts q = true) :
    is_available g ts q = true ∧ q ≠ p := by
  rw [is_available_iff] at h
  obtain ⟨hq, hq0⟩ := h
  have hne : q ≠ p := by
    intro heq
    subst heq
    rw [getCell_setCell_self v hw hp] at hq0
    exact hv hq0
  have htn : p.y.toNat ≠ q.y.toNat ∨ p.x.toNat ≠ q.x.toNat := by
    obtain ⟨px0, px1, py0, py1⟩ := hp
    obtain ⟨qx0, qx1, qy0, qy1⟩ := hq
    by_contra hc
    push_neg at hc
    apply hne
    have hx : q.x = p.x := by omega
    have hy : q.y = p.y := by omega
    cases q
    cases p
    simp_all
  rw [getCell_setCell_ne v htn] at hq0
  exact ⟨(is_available_iff g ts q).mpr ⟨hq, hq0⟩, hne⟩

/-! ## Counting marked cells -/

lemma coords_ext {p q : Coords} : p = q ↔ p.x = q.x ∧ p.y = q.y := by
  cases p
  cases q
  simp

lemma coords_toNat_ne {ts p q : Coords} (hp : InB ts p) (hq : InB ts q) (hne : p ≠ q) :
    p.y.toNat ≠ q.y.toNat ∨ p.x.toNat ≠ q.x.toNat := by
  obtain ⟨px0, px1, py0, py1⟩ := hp
  obtain ⟨qx0, qx1, qy0, qy1⟩ := hq
  by_contra hc
  push_neg at hc
  apply hne
  rw [coords_ext]
  exact ⟨by omega, by omega⟩

lemma getCell_mark_ne {g : Grid} {ts p q : Coords} (v : Int)
    (hp : InB ts p) (hq : InB ts q) (hne : q ≠ p) :
    getCell (setCell g p v) q = getCell g q :=
  getCell_setCell_ne v (coords_toNat_ne hp hq (fun h => hne h.symm))

lemma mem_boardSet {ts : Coords} {c : Int × Int} :
    c ∈ boardSet ts ↔ 0 ≤ c.1 ∧ c.1 < ts.x ∧ 0 ≤ c.2 ∧ c.2 < ts.y := by
  unfold boardSet
  rw [Finset.mem_product, Finset.mem_Icc, Finset.mem_Icc]
  omega

lemma boardSet_card (ts : Coords) : (boardSet ts).card = ts.x.toNat * ts.y.toNat := by
  unfold boardSet
  rw [Finset.card_product, Int.card_Icc, Int.card_Icc]
  congr 1 <;> omega

lemma mem_markedSet {g : Grid} {ts : Coords} {c : Int × Int} :
    c ∈ markedSet g ts ↔ c ∈ boardSet ts ∧ getCell g ⟨c.1, c.2⟩ ≠ 0 := by
  unfold markedSet
  rw [Finset.mem_filter]

lemma inB_of_mem_boardSet {ts : Coords} {c : Int × Int} (h : c ∈ boardSet ts) :
    InB ts ⟨c.1, c.2⟩ := by
  rw [mem_boardSet] at h
  exact ⟨h.1, h.2.1, h.2.2.1, h.2.2.2⟩

lemma mem_boardSet_of_inB {ts : Coords} {p : Coords} (h : InB ts p) :
    (p.x, p.y) ∈ boardSet ts := by
  rw [mem_boardSet]
  exact ⟨h.1, h.2.1, h.2.2.1, h.2.2.2⟩

lemma markedSet_zeros (ts : Coords) : markedSet (zerosGrid ts) ts = ∅ := by
  apply Finset.eq_empty_of_forall_not_mem
  intro c hc
  rw [mem_markedSet] at hc
  exact hc.2 (getCell_zerosGrid ts ⟨c.1, c.2⟩)

lemma not_mem_markedSet_of_zero {g : Grid} {ts q : Coords} (hq0 : getCell g q = 0) :
    (q.x, q.y) ∉ markedSet g ts := by
  intro h
  rw [mem_markedSet] at h
  exact h.2 hq0

lemma markedSet_mark {g : Grid} {ts q : Coords} {v : Int} (hv : v ≠ 0)
    (hw : WF g ts) (hq : InB ts q) (hq0 : getCell g q = 0) :
    markedSet (setCell g q v) ts = insert (q.x, q.y) (markedSet g ts) := by
  apply Finset.ext
  intro c
  rw [mem_markedSet, Finset.mem_insert, mem_markedSet]
  by_cases hc : c = (q.x, q.y)
  · subst hc
    simp only [true_or, iff_true]
    refine ⟨mem_boardSet_of_inB hq, ?_⟩
    rw [show (⟨q.x, q.y⟩ : Coords) = q from rfl]
    rw [getCell_setCell_self v hw hq]
    exact hv
  · have hcq : (⟨c.1, c.2⟩ : Coords) ≠ q := by
      intro h
      apply hc
      have h1 : c.1 = q.x := congrArg Coords.x h
      have h2 : c.2 = q.y := congrArg Coords.y h
      exact Prod.ext_iff.mpr ⟨h1, h2⟩
    constructor
    · rintro ⟨hb, hnz⟩
      rw [getCell_mark_ne v hq (inB_of_mem_boardSet hb) hcq] at hnz
      exact Or.inr ⟨hb, hnz⟩
    · rintro (h | ⟨hb, hnz⟩)
      · exact absurd h hc
      · refine ⟨hb, ?_⟩
        rw [getCell_mark_ne v hq (inB_of_mem_boardSet hb) hcq]
        exact hnz

lemma countInv_zeros (ts : Coords) : CountInv ts (zerosGrid ts) 0 := by
  refine ⟨WF_zerosGrid ts, le_refl 0, ?_⟩
  rw [markedSet_zeros]
  rfl

lemma countInv_mark {ts : Coords} {g : Grid} {m : Int} {q : Coords}
    (hinv : CountInv ts g m) (hq : is_available g ts q = true) :
    CountInv ts (setCell g q (m + 1)) (m + 1) := by
  obtain ⟨hw, hm, hcard⟩ := hinv
  obtain ⟨hqb, hq0⟩ := (is_available_iff g ts q).mp hq
  refine ⟨WF_setCell q (m + 1) hw, by omega, ?_⟩
  rw [markedSet_mark (by omega) hw hqb hq0]
  rw [Finset.card_insert_of_not_mem (not_mem_markedSet_of_zero hq0)]
  omega

lemma avail_bound {ts : Coords} {g : Grid} {m : Int} {u : Coords}
    (hinv : CountInv ts g m) (hu : is_available g ts u = true) :
    m + 1 ≤ ts.x * ts.y := by
  obtain ⟨hw, hm, hcard⟩ := hinv
  obtain ⟨hub, hu0⟩ := (is_available_iff g ts u).mp hu
  have hmem : (u.x, u.y) ∈ boardSet ts := mem_boardSet_of_inB hub
  have hsub : markedSet g ts ⊆ (boardSet ts).erase (u.x, u.y) := by
    intro c hcm
    rw [Finset.mem_erase]
    refine ⟨?_, (mem_markedSet.mp hcm).1⟩
    intro h
    subst h
    exact not_mem_markedSet_of_zero hu0 hcm
  have h1 : (markedSet g ts).card ≤ (boardSet ts).card - 1 := by
    have := Finset.card_le_card hsub
    rw [Finset.card_erase_of_mem hmem] at this
    exact this
  have h2 : (boardSet ts).card = ts.x.toNat * ts.y.toNat := boardSet_card ts
  have hx : 0 < ts.x := by
    obtain ⟨a, b, c, d⟩ := hub
    omega
  have hy : 0 < ts.y := by
    obtain ⟨a, b, c, d⟩ := hub
    omega
  have heq : ts.x * ts.y = ((ts.x.toNat * ts.y.toNat : Nat) : Int) := by
    push_cast
    rw [Int.toNat_of_nonneg (le_of_lt hx), Int.toNat_of_nonneg (le_of_lt hy)]
  have hpos : 0 < (boardSet ts).card := Finset.card_pos.mpr ⟨_, hmem⟩
  rw [heq]
  omega

/-! ## Soundness of the look-ahead pruning for symmetric move tables -/

lemma bool_true_of_not_false {b : Bool} (h : ¬ b = false) : b = true := by
  rcases Bool.eq_false_or_eq_true b with ht | hf
  · exact ht
  · exact absurd hf h

lemma avail_set_false {g : Grid} {ts q x : Coords} {v : Int}
    (hv : v ≠ 0) (hw : WF g ts) (hq : InB ts q)
    (h : is_available g ts x = false) :
    is_available (setCell g q v) ts x = false := by
  rcases Bool.eq_false_or_eq_true (is_available (setCell g q v) ts x) with ht | hf
  · exfalso
    have := (is_available_monotone hv hw hq ht).1
    rw [h] at this
    exact Bool.noConfusion this
  · exact hf

lemma avail_set_true_of_ne {g : Grid} {ts q u : Coords} (v : Int)
    (hw : WF g ts) (hq : InB ts q) (hu : is_available g ts u = true) (hne : u ≠ q) :
    is_available (setCell g q v) ts u = true := by
  rw [is_available_iff] at hu ⊢
  obtain ⟨hub, hu0⟩ := hu
  refine ⟨hub, ?_⟩
  rw [getCell_mark_ne v hq hub hne]
  exact hu0

lemma prune_test_spec {ts : Coords} {delta : List Coords} {pos : Coords} {m1 : Int} {g1 : Grid}
    (h : prune_test ts delta pos m1 g1 = true) :
    m1 < ts.x * ts.y - 1 ∧ ∃ d ∈ delta,
      is_available g1 ts (pos.add d) = true ∧ is_blocked g1 ts delta (pos.add d) = true := by
  unfold prune_test at h
  rw [Bool.and_eq_true] at h
  obtain ⟨h1, h2⟩ := h
  refine ⟨of_decide_eq_true h1, ?_⟩
  rw [List.any_eq_true] at h2
  obtain ⟨d, hd, hboth⟩ := h2
  rw [Bool.and_eq_true] at hboth
  exact ⟨d, hd, hboth.1, hboth.2⟩

lemma prune_test_of {ts : Coords} {delta : List Coords} {pos : Coords} {m1 : Int} {g1 : Grid}
    (h1 : m1 < ts.x * ts.y - 1) {d : Coords} (hd : d ∈ delta)
    (ha : is_available g1 ts (pos.add d) = true)
    (hb : is_blocked g1 ts delta (pos.add d) = true) :
    prune_test ts delta pos m1 g1 = true := by
  unfold prune_test
  rw [Bool.and_eq_true]
  refine ⟨decide_eq_true h1, ?_⟩
  rw [List.any_eq_true]
  exact ⟨d, hd, by rw [Bool.and_eq_true]; exact ⟨ha, hb⟩⟩

lemma pathLoop_fail_fixed {check : Bool} {ts : Coords} {delta : List Coords} {pos : Coords}
    {m : Int} {g : Grid} (scan : List Coords)
    (H : ∀ d ∈ scan, ∀ it, (path_iter check ts delta (pos.add d) m g it).1 = false) :
    ∀ it, (path_loop check ts delta pos m scan g it).1 = false := by
  induction scan with
  | nil =>
    intro it
    rw [pathLoop_nil]
  | cons d rest ihr =>
    intro it
    have hf := H d (List.mem_cons_self d rest) it
    have heta : path_iter check ts delta (pos.add d) m g it =
        ((path_iter check ts delta (pos.add d) m g it).1,
         (path_iter check ts delta (pos.add d) m g it).2.1,
         (path_iter check ts delta (pos.add d) m g it).2.2) := rfl
    rw [hf] at heta
    have hres := pathIter_restore heta
    rw [pathLoop_cons_false heta, hres]
    exact ihr (fun e he it' => H e (List.mem_cons_of_mem d he) it') _

lemma deadCell_aux : ∀ k : Nat, ∀ (check : Bool) (ts : Coords) (delta : List Coords)
    (u q : Coords) (m : Int) (g : Grid) (it : Option Int),
    (ts.x * ts.y + 1 - m).toNat = k →
    CountInv ts g m →
    is_available g ts u = true →
    (∀ d ∈ delta, is_available g ts (u.add d) = false) →
    (∀ d ∈ delta, is_available g ts (u.add (Coords.neg d)) = false) →
    (q = u → m + 2 ≤ ts.x * ts.y) →
    (path_iter check ts delta q m g it).1 = false := by
  intro k
  induction k using Nat.strong_induction_on with
  | _ k ih =>
    intro check ts delta u q m g it hk hinv hu hnb hnb2 hqu
    have hmtot : m + 1 ≤ ts.x * ts.y := avail_bound hinv hu
    have h1 : ¬ m ≥ ts.x * ts.y := by omega
    by_cases h2 : is_available g ts q = false
    · rw [pathIter_unavail h1 h2]
    · have h2' : is_available g ts q = true := bool_true_of_not_false h2
      have hw := hinv.wf
      have hqb : InB ts q := ((is_available_iff g ts q).mp h2').1
      have hm1 : m + 1 ≠ 0 := by
        have := hinv.nonneg
        omega
      by_cases hq : q = u
      · subst hq
        have htot2 : m + 2 ≤ ts.x * ts.y := hqu rfl
        by_cases h3 : (check && prune_test ts delta q (m + 1) (setCell g q (m + 1))) = true
        · rw [pathIter_prune h1 h2' h3]
        · rw [pathIter_go h1 h2' h3]
          apply pathLoop_fail_fixed
          intro d hd it'
          have hna : is_available (setCell g q (m + 1)) ts (q.add d) = false :=
            avail_set_false hm1 hw hqb (hnb d hd)
          rw [pathIter_unavail (by omega) hna]
      · by_cases h3 : (check && prune_test ts delta q (m + 1) (setCell g q (m + 1))) = true
        · rw [pathIter_prune h1 h2' h3]
        · rw [pathIter_go h1 h2' h3]
          apply pathLoop_fail_fixed
          intro d hd it'
          have hlt : (ts.x * ts.y + 1 - (m + 1)).toNat < k := by omega
          apply ih _ hlt check ts delta u (q.add d) (m + 1) _ it' rfl
          · exact countInv_mark hinv h2'
          · exact avail_set_true_of_ne (m + 1) hw hqb hu (fun h => hq h.symm)
          · intro e he
            exact avail_set_false hm1 hw hqb (hnb e he)
          · intro e he
            exact avail_set_false hm1 hw hqb (hnb2 e he)
          · intro hequ
            exfalso
            have hback : u.add (Coords.neg d) = q := by
              rw [← hequ]
              unfold Coords.add Coords.neg
              rw [coords_ext]
              constructor
              · simp only
                omega
              · simp only
                omega
            have hfalse := hnb2 d hd
            rw [hback, h2'] at hfalse
            exact Bool.noConfusion hfalse

lemma deadCell_fail {check : Bool} {ts : Coords} {delta : List Coords}
    {u q : Coords} {m : Int} {g : Grid} {it : Option Int}
    (hinv : CountInv ts g m)
    (hu : is_available g ts u = true)
    (hnb : ∀ d ∈ delta, is_available g ts (u.add d) = false)
    (hnb2 : ∀ d ∈ delta, is_available g ts (u.add (Coords.neg d)) = false)
    (hqu : q = u → m + 2 ≤ ts.x * ts.y) :
    (path_iter check ts delta q m g it).1 = false :=
  deadCell_aux _ check ts delta u q m g it rfl hinv hu hnb hnb2 hqu

/-! ## Equivalence of the search with and without the pruning step -/

lemma pruneEq_loop {ts : Coords} {delta : List Coords} {q : Coords} {m : Int}
    (scan : List Coords) (g : Grid)
    (H : ∀ d ∈ scan, ∀ it1 it2,
      (path_iter true ts delta (q.add d) m g it1).1 =
        (path_iter false ts delta (q.add d) m g it2).1 ∧
      (path_iter true ts delta (q.add d) m g it1).2.1 =
        (path_iter false ts delta (q.add d) m g it2).2.1) :
    ∀ it1 it2,
      (path_loop true ts delta q m scan g it1).1 =
        (path_loop false ts delta q m scan g it2).1 ∧
      (path_loop true ts delta q m scan g it1).2.1 =
        (path_loop false ts delta q m scan g it2).2.1 := by
  induction scan with
  | nil =>
    intro it1 it2
    rw [pathLoop_nil, pathLoop_nil]
    exact ⟨rfl, rfl⟩
  | cons d rest ihr =>
    intro it1 it2
    obtain ⟨hb, hg⟩ := H d (List.mem_cons_self d rest) it1 it2
    have e1 : path_iter true ts delta (q.add d) m g it1 =
        ((path_iter true ts delta (q.add d) m g it1).1,
         (path_iter true ts delta (q.add d) m g it1).2.1,
         (path_iter true ts delta (q.add d) m g it1).2.2) := rfl
    have e2 : path_iter false ts delta (q.add d) m g it2 =
        ((path_iter false ts delta (q.add d) m g it2).1,
         (path_iter false ts delta (q.add d) m g it2).2.1,
         (path_iter false ts delta (q.add d) m g it2).2.2) := rfl
    cases hbt : (path_iter true ts delta (q.add d) m g it1).1
    · have hbf : (path_iter false ts delta (q.add d) m g it2).1 = false := by
        rw [← hb, hbt]
      rw [hbt] at e1
      rw [hbf] at e2
      have r1 := pathIter_restore e1
      have r2 := pathIter_restore e2
      rw [pathLoop_cons_false e1, pathLoop_cons_false e2, r1, r2]
      exact ihr (fun e he => H e (List.mem_cons_of_mem d he)) _ _
    · have hbf : (path_iter false ts delta (q.add d) m g it2).1 = true := by
        rw [← hb, hbt]
      rw [hbt] at e1
      rw [hbf] at e2
      rw [pathLoop_cons_true e1, pathLoop_cons_true e2]
      exact ⟨rfl, hg⟩

lemma pruneEq_aux : ∀ k : Nat, ∀ (ts : Coords) (delta : List Coords) (q : Coords) (m : Int)
    (g : Grid) (it1 it2 : Option Int),
    SymTable delta →
    (ts.x * ts.y + 1 - m).toNat = k →
    CountInv ts g m →
    (path_iter true ts delta q m g it1).1 = (path_iter false ts delta q m g it2).1 ∧
    (path_iter true ts delta q m g it1).2.1 = (path_iter false ts delta q m g it2).2.1 := by
  intro k
  induction k using Nat.strong_induction_on with
  | _ k ih =>
    intro ts delta q m g it1 it2 hsym hk hinv
    by_cases h1 : m ≥ ts.x * ts.y
    · rw [pathIter_done h1, pathIter_done h1]
      exact ⟨rfl, rfl⟩
    · by_cases h2 : is_available g ts q = false
      · rw [pathIter_unavail h1 h2, pathIter_unavail h1 h2]
        exact ⟨rfl, rfl⟩
      · have h2' : is_available g ts q = true := bool_true_of_not_false h2
        have hinv1 : CountInv ts (setCell g q (m + 1)) (m + 1) := countInv_mark hinv h2'
        have h3f : ¬ (false && prune_test ts delta q (m + 1) (setCell g q (m + 1))) = true := by
          simp
        cases h3 : prune_test ts delta q (m + 1) (setCell g q (m + 1))
        · have h3t : ¬ (true && prune_test ts delta q (m + 1)
              (setCell g q (m + 1))) = true := by
            rw [h3]
            simp
          rw [pathIter_go h1 h2' h3t, pathIter_go h1 h2' h3f]
          apply pruneEq_loop
          intro d hd it1' it2'
          exact ih ((ts.x * ts.y + 1 - (m + 1)).toNat) (by omega) ts delta (q.add d) (m + 1)
            _ it1' it2' hsym rfl hinv1
        · have h3t : (true && prune_test ts delta q (m + 1)
              (setCell g q (m + 1))) = true := by
            rw [h3]
            rfl
          rw [pathIter_prune h1 h2' h3t, pathIter_go h1 h2' h3f]
          obtain ⟨hlt1, d0, hd0, hav0, hbl0⟩ := prune_test_spec h3
          have hnb : ∀ e ∈ delta,
              is_available (setCell g q (m + 1)) ts ((q.add d0).add e) = false :=
            (is_blocked_iff _ _ _ _).mp hbl0
          have hnb2 : ∀ e ∈ delta,
              is_available (setCell g q (m + 1)) ts ((q.add d0).add (Coords.neg e)) = false :=
            fun e he => hnb (Coords.neg e) (hsym e he)
          have hloop : (path_loop false ts delta q (m + 1) delta (setCell g q (m + 1))
              (it2.map (fun n => n + 1))).1 = false := by
            apply pathLoop_fail_fixed
            intro d hd it'
            exact deadCell_fail hinv1 hav0 hnb hnb2 (fun _ => by omega)
          constructor
          · exact hloop.symm
          · have heta : path_loop false ts delta q (m + 1) delta (setCell g q (m + 1))
                (it2.map (fun n => n + 1)) =
                ((path_loop false ts delta q (m + 1) delta (setCell g q (m + 1))
                  (it2.map (fun n => n + 1))).1,
                 (path_loop false ts delta q (m + 1) delta (setCell g q (m + 1))
                  (it2.map (fun n => n + 1))).2.1,
                 (path_loop false ts delta q (m + 1) delta (setCell g q (m + 1))
                  (it2.map (fun n => n + 1))).2.2) := rfl
            rw [hloop] at heta
            have hres := pathLoop_restore delta
              (fun d hd g' it' g2' it2' hc => pathIter_restore hc) _ _ _ _ heta
            rw [hres]

/-! ## The search succeeds exactly when a completion exists -/

lemma bool_false_of_not_true {b : Bool} (h : ¬ b = true) : b = false := by
  rcases Bool.eq_false_or_eq_true b with ht | hf
  · exact absurd ht h
  · exact hf

lemma pathLoop_success {check : Bool} {ts : Coords} {delta : List Coords} {pos : Coords}
    {m : Int} (scan : List Coords) :
    ∀ g it g2 it2, path_loop check ts delta pos m scan g it = (true, g2, it2) →
      ∃ d ∈ scan, ∃ it', path_iter check ts delta (pos.add d) m g it' = (true, g2, it2) := by
  induction scan with
  | nil =>
    intro g it g2 it2 h
    rw [pathLoop_nil] at h
    cases h
  | cons d rest ihr =>
    intro g it g2 it2 h
    rcases hcall : path_iter check ts delta (pos.add d) m g it with ⟨b, gg, ii⟩
    cases b
    · rw [pathLoop_cons_false hcall] at h
      have hgg : gg = g := pathIter_restore hcall
      subst hgg
      obtain ⟨e, he, it', h'⟩ := ihr gg ii g2 it2 h
      exact ⟨e, List.mem_cons_of_mem d he, it', h'⟩
    · rw [pathLoop_cons_true hcall] at h
      cases h
      exact ⟨d, List.mem_cons_self d rest, it, hcall⟩

lemma found_completes_aux : ∀ k : Nat, ∀ (check : Bool) (ts : Coords) (delta : List Coords)
    (q : Coords) (m : Int) (g : Grid) (it : Option Int) (g2 : Grid) (it2 : Option Int),
    (ts.x * ts.y + 1 - m).toNat = k →
    path_iter check ts delta q m g it = (true, g2, it2) →
    Completes check ts delta g m q := by
  intro k
  induction k using Nat.strong_induction_on with
  | _ k ih =>
    intro check ts delta q m g it g2 it2 hk hcall
    by_cases h1 : m ≥ ts.x * ts.y
    · exact Completes.done g m q h1
    · by_cases h2 : is_available g ts q = false
      · rw [pathIter_unavail h1 h2] at hcall
        cases hcall
      · have h2' : is_available g ts q = true := bool_true_of_not_false h2
        by_cases h3 : (check && prune_test ts delta q (m + 1) (setCell g q (m + 1))) = true
        · rw [pathIter_prune h1 h2' h3] at hcall
          cases hcall
        · rw [pathIter_go h1 h2' h3] at hcall
          obtain ⟨d, hd, it', hchild⟩ := pathLoop_success delta _ _ _ _ hcall
          have hlt : (ts.x * ts.y + 1 - (m + 1)).toNat < k := by omega
          exact Completes.step g m q d h1 h2' (bool_false_of_not_true h3) hd
            (ih _ hlt check ts delta (q.add d) (m + 1) _ it' g2 it2 rfl hchild)

lemma pathLoop_of_child_success {check : Bool} {ts : Coords} {delta : List Coords}
    {pos : Coords} {m : Int} (scan : List Coords) {g : Grid} (d : Coords) (hd : d ∈ scan)
    (hchild : ∀ it', (path_iter check ts delta (pos.add d) m g it').1 = true) :
    ∀ it, (path_loop check ts delta pos m scan g it).1 = true := by
  induction scan with
  | nil => cases hd
  | cons e rest ihr =>
    intro it
    rcases hcall : path_iter check ts delta (pos.add e) m g it with ⟨b, gg, ii⟩
    cases b
    · have hgg : gg = g := pathIter_restore hcall
      rcases List.mem_cons.mp hd with rfl | hd'
      · have := hchild it
        rw [hcall] at this
        cases this
      · rw [pathLoop_cons_false hcall, hgg]
        exact ihr hd' ii
    · rw [pathLoop_cons_true hcall]

lemma completes_found {check : Bool} {ts : Coords} {delta : List Coords}
    {g : Grid} {m : Int} {q : Coords} (h : Completes check ts delta g m q) :
    ∀ it, (path_iter check ts delta q m g it).1 = true := by
  induction h with
  | done g m q h1 =>
    intro it
    rw [pathIter_done h1]
  | step g m q d h1 h2 h3 hd hrec ihc =>
    intro it
    have h3' : ¬ (check && prune_test ts delta q (m + 1) (setCell g q (m + 1))) = true := by
      rw [h3]
      simp
    rw [pathIter_go h1 h2 h3']
    exact pathLoop_of_child_success delta d hd (fun it' => ihc it') _

lemma found_eq_completes {check : Bool} {ts : Coords} {delta : List Coords}
    {q : Coords} {m : Int} {g : Grid} (it : Option Int) :
    (path_iter check ts delta q m g it).1 = true ↔ Completes check ts delta g m q := by
  constructor
  · intro h
    have heta : path_iter check ts delta q m g it =
        ((path_iter check ts delta q m g it).1,
         (path_iter check ts delta q m g it).2.1,
         (path_iter check ts delta q m g it).2.2) := rfl
    rw [h] at heta
    exact found_completes_aux _ check ts delta q m g it _ _ rfl heta
  · intro h
    exact completes_found h it

/-! ## The result flag depends on the move table only through membership -/

lemma list_any_mem_eq {α : Type} {l1 l2 : List α} {f : α → Bool}
    (hmem : ∀ d, d ∈ l1 ↔ d ∈ l2) : l1.any f = l2.any f := by
  by_cases h : l1.any f = true
  · rw [h]
    rcases List.any_eq_true.mp h with ⟨d, hd, hf⟩
    exact (List.any_eq_true.mpr ⟨d, (hmem d).mp hd, hf⟩).symm
  · rw [bool_false_of_not_true h]
    have h2 : ¬ l2.any f = true := by
      intro hc
      rcases List.any_eq_true.mp hc with ⟨d, hd, hf⟩
      exact h (List.any_eq_true.mpr ⟨d, (hmem d).mpr hd, hf⟩)
    exact (bool_false_of_not_true h2).symm

lemma is_blocked_perm {g : Grid} {ts : Coords} {p : Coords} {l1 l2 : List Coords}
    (hmem : ∀ d, d ∈ l1 ↔ d ∈ l2) :
    is_blocked g ts l1 p = is_blocked g ts l2 p := by
  by_cases hb : is_blocked g ts l1 p = true
  · rw [hb]
    have := (is_blocked_iff g ts l1 p).mp hb
    exact ((is_blocked_iff g ts l2 p).mpr (fun d hd => this d ((hmem d).mpr hd))).symm
  · rw [bool_false_of_not_true hb]
    have h2 : ¬ is_blocked g ts l2 p = true := by
      intro hc
      exact hb ((is_blocked_iff g ts l1 p).mpr
        (fun d hd => (is_blocked_iff g ts l2 p).mp hc d ((hmem d).mp hd)))
    exact (bool_false_of_not_true h2).symm

lemma prune_test_perm {ts : Coords} {pos : Coords} {m1 : Int} {g1 : Grid}
    {l1 l2 : List Coords} (hmem : ∀ d, d ∈ l1 ↔ d ∈ l2) :
    prune_test ts l1 pos m1 g1 = prune_test ts l2 pos m1 g1 := by
  unfold prune_test
  have hb : (fun d => is_available g1 ts (pos.add d) && is_blocked g1 ts l1 (pos.add d)) =
      (fun d => is_available g1 ts (pos.add d) && is_blocked g1 ts l2 (pos.add d)) := by
    funext d
    rw [is_blocked_perm hmem]
  rw [hb, list_any_mem_eq hmem]

lemma completes_perm {check : Bool} {ts : Coords} {l1 l2 : List Coords}
    (hmem : ∀ d, d ∈ l1 ↔ d ∈ l2) :
    ∀ {g m q}, Completes check ts l1 g m q → Completes check ts l2 g m q := by
  intro g m q h
  induction h with
  | done g m q h1 => exact Completes.done g m q h1
  | step g m q d h1 h2 h3 hd hrec ihc =>
    apply Completes.step g m q d h1 h2 ?_ ((hmem d).mp hd) ihc
    rw [← prune_test_perm hmem]
    exact h3

/-! ## The path invariant -/

lemma searchInv_countInv {ts : Coords} {delta : List Coords} {g : Grid} {m : Int}
    (h : SearchInv ts delta g m) : CountInv ts g m :=
  ⟨h.wf, h.nonneg, h.card⟩

lemma inv_init (ts : Coords) (delta : List Coords) :
    SearchInv ts delta (zerosGrid ts) 0 := by
  refine ⟨WF_zerosGrid ts, le_refl 0, ?_, ?_, ?_, ?_⟩
  · rw [markedSet_zeros]
    rfl
  · intro j hj1 hj2
    exfalso
    omega
  · intro c hc hnz
    exact absurd (getCell_zerosGrid ts c) hnz
  · intro j hj1 hj2
    exfalso
    omega

lemma inv_mark {ts : Coords} {delta : List Coords} {g : Grid} {m : Int} {q : Coords}
    (hinv : SearchInv ts delta g m) (hq : is_available g ts q = true)
    (hnx : NextAt g ts delta m q) :
    SearchInv ts delta (setCell g q (m + 1)) (m + 1) := by
  obtain ⟨hw, hm, hcard, huniq, hrange, hlink⟩ := hinv
  obtain ⟨hqb, hq0⟩ := (is_available_iff g ts q).mp hq
  have hget_q : getCell (setCell g q (m + 1)) q = m + 1 := getCell_setCell_self (m + 1) hw hqb
  have hget_ne : ∀ c : Coords, InB ts c → c ≠ q →
      getCell (setCell g q (m + 1)) c = getCell g c :=
    fun c hc hne => getCell_mark_ne (m + 1) hqb hc hne
  refine ⟨WF_setCell q (m + 1) hw, by omega, ?_, ?_, ?_, ?_⟩
  · rw [markedSet_mark (by omega) hw hqb hq0,
      Finset.card_insert_of_not_mem (not_mem_markedSet_of_zero hq0)]
    omega
  · intro j hj1 hj2
    by_cases hj : j = m + 1
    · subst hj
      refine ⟨q, ⟨hqb, hget_q⟩, ?_⟩
      rintro c ⟨hcb, hcv⟩
      by_contra hne
      rw [hget_ne c hcb hne] at hcv
      have := hrange c hcb (by rw [hcv]; omega)
      omega
    · have hjm : j ≤ m := by omega
      obtain ⟨c, ⟨hcb, hcv⟩, hcu⟩ := huniq j hj1 hjm
      have hcq : c ≠ q := by
        intro h
        subst h
        rw [hq0] at hcv
        omega
      refine ⟨c, ⟨hcb, by rw [hget_ne c hcb hcq]; exact hcv⟩, ?_⟩
      rintro c' ⟨hc'b, hc'v⟩
      have hc'q : c' ≠ q := by
        intro h
        subst h
        rw [hget_q] at hc'v
        omega
      rw [hget_ne c' hc'b hc'q] at hc'v
      exact hcu c' ⟨hc'b, hc'v⟩
  · intro c hc hnz
    by_cases hcq : c = q
    · subst hcq
      rw [hget_q]
      omega
    · rw [hget_ne c hc hcq] at hnz ⊢
      have := hrange c hc hnz
      omega
  · intro j hj1 hj2 c c' hcb hc'b hcv hc'v
    by_cases hj : j + 1 = m + 1
    · have hjm : j = m := by omega
      have hc'q : c' = q := by
        by_contra hne
        rw [hget_ne c' hc'b hne] at hc'v
        have := hrange c' hc'b (by rw [hc'v]; omega)
        omega
      have hcq : c ≠ q := by
        intro h
        subst h
        rw [hget_q] at hcv
        omega
      rw [hget_ne c hcb hcq] at hcv
      rcases hnx with hm0 | ⟨p, dd, hpb, hpv, hdd, hqp⟩
      · omega
      · obtain ⟨c0, hc0, hc0u⟩ := huniq m (by omega) (le_refl m)
        have h1 : c = c0 := hc0u c ⟨hcb, by rw [hcv, hjm]⟩
        have h2 : p = c0 := hc0u p ⟨hpb, hpv⟩
        subst hc'q
        exact ⟨dd, hdd, by rw [hqp, h1, ← h2]⟩
    · have hc'q : c' ≠ q := by
        intro h
        subst h
        rw [hget_q] at hc'v
        omega
      have hcq : c ≠ q := by
        intro h
        subst h
        rw [hget_q] at hcv
        omega
      rw [hget_ne c hcb hcq] at hcv
      rw [hget_ne c' hc'b hc'q] at hc'v
      exact hlink j hj1 (by omega) c c' hcb hc'b hcv hc'v

lemma nextAt_mark {ts : Coords} {delta : List Coords} {g : Grid} {m : Int} {q d : Coords}
    (hq : is_available g ts q = true) (hw : WF g ts) (hd : d ∈ delta) :
    NextAt (setCell g q (m + 1)) ts delta (m + 1) (q.add d) := by
  have hqb : InB ts q := ((is_available_iff g ts q).mp hq).1
  exact Or.inr ⟨q, d, hqb, getCell_setCell_self (m + 1) hw hqb, hd, rfl⟩

lemma card_le_total {ts : Coords} {g : Grid} {m : Int}
    (hinv : CountInv ts g m) (hx : 0 < ts.x) (hy : 0 < ts.y) : m ≤ ts.x * ts.y := by
  have h1 : (markedSet g ts).card ≤ (boardSet ts).card :=
    Finset.card_le_card (Finset.filter_subset _ _)
  rw [boardSet_card, hinv.card] at h1
  have heq : ts.x * ts.y = ((ts.x.toNat * ts.y.toNat : Nat) : Int) := by
    push_cast
    rw [Int.toNat_of_nonneg (le_of_lt hx), Int.toNat_of_nonneg (le_of_lt hy)]
  have := hinv.nonneg
  rw [heq]
  omega

lemma reachState_inv {ts : Coords} {delta : List Coords} {start : Coords} :
    ∀ {g : Grid} {m : Int} {q : Coords}, ReachState ts delta start g m q →
      SearchInv ts delta g m ∧ NextAt g ts delta m q := by
  intro g m q h
  induction h with
  | init => exact ⟨inv_init ts delta, Or.inl rfl⟩
  | step g m q d hr hm hq hd ihr =>
    obtain ⟨hinv, hnx⟩ := ihr
    exact ⟨inv_mark hinv hq hnx, nextAt_mark hq hinv.wf hd⟩

/-! ## Success produces a Hamiltonian numbering -/

lemma pathIter_success_aux : ∀ k : Nat, ∀ (check : Bool) (ts : Coords) (delta : List Coords)
    (q : Coords) (m : Int) (g : Grid) (it : Option Int) (g2 : Grid) (it2 : Option Int),
    (ts.x * ts.y + 1 - m).toNat = k →
    path_iter check ts delta q m g it = (true, g2, it2) →
    SearchInv ts delta g m →
    NextAt g ts delta m q →
    (m ≥ ts.x * ts.y → g2 = g) ∧
    (¬ m ≥ ts.x * ts.y → SearchInv ts delta g2 (ts.x * ts.y) ∧ getCell g2 q = m + 1 ∧
      ∀ c : Coords, InB ts c → getCell g c ≠ 0 → getCell g2 c = getCell g c) := by
  intro k
  induction k using Nat.strong_induction_on with
  | _ k ih =>
    intro check ts delta q m g it g2 it2 hk hcall hinv hnx
    by_cases h1 : m ≥ ts.x * ts.y
    · rw [pathIter_done h1] at hcall
      cases hcall
      exact ⟨fun _ => rfl, fun hn => absurd h1 hn⟩
    · refine ⟨fun hcontra => absurd hcontra h1, fun _ => ?_⟩
      by_cases h2 : is_available g ts q = false
      · rw [pathIter_unavail h1 h2] at hcall
        cases hcall
      · have h2' : is_available g ts q = true := bool_true_of_not_false h2
        obtain ⟨hqb, hq0⟩ := (is_available_iff g ts q).mp h2'
        have hw := hinv.wf
        have hget_q : getCell (setCell g q (m + 1)) q = m + 1 :=
          getCell_setCell_self (m + 1) hw hqb
        have hget_ne : ∀ c : Coords, InB ts c → c ≠ q →
            getCell (setCell g q (m + 1)) c = getCell g c :=
          fun c hc hne => getCell_mark_ne (m + 1) hqb hc hne
        have hinv1 : SearchInv ts delta (setCell g q (m + 1)) (m + 1) := inv_mark hinv h2' hnx
        by_cases h3 : (check && prune_test ts delta q (m + 1) (setCell g q (m + 1))) = true
        · rw [pathIter_prune h1 h2' h3] at hcall
          cases hcall
        · rw [pathIter_go h1 h2' h3] at hcall
          obtain ⟨d, hd, it', hchild⟩ := pathLoop_success delta _ _ _ _ hcall
          have hlt : (ts.x * ts.y + 1 - (m + 1)).toNat < k := by omega
          have hnx1 : NextAt (setCell g q (m + 1)) ts delta (m + 1) (q.add d) :=
            nextAt_mark h2' hw hd
          have H := ih _ hlt check ts delta (q.add d) (m + 1) _ it' g2 it2 rfl hchild hinv1 hnx1
          by_cases hch : m + 1 ≥ ts.x * ts.y
          · have hg2 : g2 = setCell g q (m + 1) := H.1 hch
            have htot : m + 1 ≤ ts.x * ts.y := by
              apply card_le_total (searchInv_countInv hinv1)
              · obtain ⟨a, b, c, dd⟩ := hqb
                omega
              · obtain ⟨a, b, c, dd⟩ := hqb
                omega
            have hmeq : m + 1 = ts.x * ts.y := by omega
            subst hg2
            refine ⟨by rw [← hmeq]; exact hinv1, by rw [hget_q], ?_⟩
            intro c hc hnz
            have hcq : c ≠ q := by
              intro h
              subst h
              exact hnz hq0
            exact hget_ne c hc hcq
          · obtain ⟨hinv2, hval, hpres⟩ := H.2 hch
            refine ⟨hinv2, ?_, ?_⟩
            · have h5 := hpres q hqb (by rw [hget_q]; have := hinv.nonneg; omega)
              rw [h5, hget_q]
            · intro c hc hnz
              have hcq : c ≠ q := by
                intro h
                subst h
                exact hnz hq0
              have h6 : getCell (setCell g q (m + 1)) c = getCell g c := hget_ne c hc hcq
              have h7 := hpres c hc (by rw [h6]; exact hnz)
              rw [h7, h6]

lemma avail_of_inB_zero {g : Grid} {ts c : Coords} (hc : InB ts c)
    (h0 : getCell g c = 0) : is_available g ts c = true :=
  (is_available_iff g ts c).mpr ⟨hc, h0⟩

lemma hamPath_assembly {ts : Coords} {delta : List Coords} {G : Grid} {start : Coords}
    (hinv : SearchInv ts delta G (ts.x * ts.y)) (hstart : getCell G start = 1) :
    HamPath G ts delta start := by
  refine ⟨hinv.uniq, hstart, ?_, hinv.link⟩
  intro c hc
  by_cases hv : getCell G c = 0
  · exfalso
    have := avail_bound (searchInv_countInv hinv) (avail_of_inB_zero hc hv)
    omega
  · exact hinv.range c hc hv

lemma path_find_success_ham {check : Bool} {ts : Coords} {delta : List Coords}
    {pos : Coords} {g : Grid} {it : Option Int} (hw : WF g ts) (htot : 1 ≤ ts.x * ts.y)
    (hs : (path_find check ts delta pos g it).1 = true) :
    HamPath (path_find check ts delta pos g it).2.1 ts delta pos := by
  unfold path_find at hs ⊢
  rw [resetGrid_eq_zerosGrid hw] at hs ⊢
  have heta : path_iter check ts delta pos 0 (zerosGrid ts) (it.map (fun _ => 0)) =
      ((path_iter check ts delta pos 0 (zerosGrid ts) (it.map (fun _ => 0))).1,
       (path_iter check ts delta pos 0 (zerosGrid ts) (it.map (fun _ => 0))).2.1,
       (path_iter check ts delta pos 0 (zerosGrid ts) (it.map (fun _ => 0))).2.2) := rfl
  rw [hs] at heta
  have H := pathIter_success_aux _ check ts delta pos 0 (zerosGrid ts) _ _ _ rfl heta
    (inv_init ts delta) (Or.inl rfl)
  have h1 : ¬ (0 : Int) ≥ ts.x * ts.y := by omega
  obtain ⟨hinv2, hval, hpres⟩ := H.2 h1
  refine hamPath_assembly hinv2 ?_
  rw [hval]
  norm_num

/-! ## Agreement of the checked variants under the caller contract -/

lemma getCellC_eq {g : Grid} {ts p : Coords} (hw : WF g ts) (hp : InB ts p) :
    getCellC g p = some (getCell g p) := by
  obtain ⟨hlen, hrow⟩ := hw
  obtain ⟨hx0, hx1, hy0, hy1⟩ := hp
  have hy : p.y.toNat < g.length := by omega
  have hx : p.x.toNat < (g.getD p.y.toNat []).length := by
    rw [hrow _ (row_mem_of_lt hy)]
    omega
  unfold getCellC getCell
  rw [if_neg (by omega)]
  rw [List.getElem?_eq_getElem hy]
  rw [Option.some_bind]
  rw [getD_row_of_lt hy] at hx
  rw [List.getElem?_eq_getElem hx]
  rw [List.getD_eq_getElem?_getD _ p.x.toNat, getD_row_of_lt hy,
    List.getElem?_eq_getElem hx]
  rfl

lemma setCellC_eq {g : Grid} {ts p : Coords} (v : Int) (hw : WF g ts) (hp : InB ts p) :
    setCellC g p v = some (setCell g p v) := by
  obtain ⟨hlen, hrow⟩ := hw
  obtain ⟨hx0, hx1, hy0, hy1⟩ := hp
  have hy : p.y.toNat < g.length := by omega
  have hx : p.x.toNat < (g.getD p.y.toNat []).length := by
    rw [hrow _ (row_mem_of_lt hy)]
    omega
  unfold setCellC setCell
  rw [if_neg (by omega)]
  rw [List.getElem?_eq_getElem hy]
  rw [Option.some_bind]
  rw [getD_row_of_lt hy] at hx ⊢
  rw [if_pos hx]

lemma is_availableC_eq {g : Grid} {ts : Coords} (hw : WF g ts) (p : Coords) :
    is_availableC g ts p = some (is_available g ts p) := by
  unfold is_availableC is_available
  by_cases hb : p.x < 0 ∨ p.x ≥ ts.x ∨ p.y < 0 ∨ p.y ≥ ts.y
  · rw [if_pos hb, if_pos hb]
  · rw [if_neg hb, if_neg hb]
    have hp : InB ts p := by
      push_neg at hb
      obtain ⟨a, b, c, d⟩ := hb
      exact ⟨by omega, by omega, by omega, by omega⟩
    rw [getCellC_eq hw hp, Option.some_bind]
    by_cases hz : getCell g p ≠ 0
    · rw [if_pos hz, if_pos hz]
    · rw [if_neg hz, if_neg hz]

lemma is_blockedC_eq {g : Grid} {ts : Coords} (hw : WF g ts) (delta : List Coords)
    (p : Coords) : is_blockedC g ts delta p = some (is_blocked g ts delta p) := by
  induction delta with
  | nil => rfl
  | cons d rest ih =>
    unfold is_blockedC is_blocked
    rw [is_availableC_eq hw (p.add d), Option.some_bind]
    by_cases ha : is_available g ts (p.add d) = true
    · rw [ha]
      rw [if_pos rfl, if_pos rfl]
    · have ha' := bool_false_of_not_true ha
      rw [ha']
      rw [if_neg (Bool.false_ne_true), if_neg (Bool.false_ne_true)]
      exact ih

lemma prune_scanC_eq {g1 : Grid} {ts : Coords} {delta : List Coords} {pos : Coords}
    (hw : WF g1 ts) : ∀ scan : List Coords,
    prune_scanC g1 ts delta pos scan =
      some (scan.any (fun d =>
        is_available g1 ts (pos.add d) && is_blocked g1 ts delta (pos.add d))) := by
  intro scan
  induction scan with
  | nil => rfl
  | cons d rest ih =>
    unfold prune_scanC
    rw [is_availableC_eq hw (pos.add d), Option.some_bind]
    rw [List.any_cons]
    by_cases ha : is_available g1 ts (pos.add d) = true
    · rw [ha, if_pos rfl]
      rw [is_blockedC_eq hw delta (pos.add d), Option.some_bind]
      by_cases hb : is_blocked g1 ts delta (pos.add d) = true
      · rw [hb, if_pos rfl]
        simp
      · have hb' := bool_false_of_not_true hb
        rw [hb', if_neg (Bool.false_ne_true)]
        rw [ih]
        simp
    · have ha' := bool_false_of_not_true ha
      rw [ha', if_neg (Bool.false_ne_true)]
      rw [ih]
      simp

lemma prune_testC_eq {ts : Coords} {delta : List Coords} {pos : Coords} {m1 : Int}
    {g1 : Grid} (hw : WF g1 ts) :
    prune_testC ts delta pos m1 g1 = some (prune_test ts delta pos m1 g1) := by
  unfold prune_testC prune_test
  by_cases hc : m1 < ts.x * ts.y - 1
  · rw [if_pos hc, prune_scanC_eq hw delta]
    rw [decide_eq_true hc, Bool.true_and]
  · rw [if_neg hc]
    rw [decide_eq_false hc, Bool.false_and]

lemma pathLoopC_eq {check : Bool} {ts : Coords} {delta : List Coords} {pos : Coords}
    {m : Int} (hpos : InB ts pos) (scan : List Coords)
    (H : ∀ d ∈ scan, ∀ g it, WF g ts →
      path_iterC check ts delta (pos.add d) m g it =
        some (path_iter check ts delta (pos.add d) m g it)) :
    ∀ g it, WF g ts →
      path_loopC check ts delta pos m scan g it =
        some (path_loop check ts delta pos m scan g it) := by
  induction scan with
  | nil =>
    intro g it hw
    rw [path_loopC, pathLoop_nil]
    rw [setCellC_eq 0 hw hpos, Option.some_bind]
  | cons d rest ihr =>
    intro g it hw
    rw [path_loopC]
    rw [H d (List.mem_cons_self d rest) g it hw, Option.some_bind]
    rcases hcall : path_iter check ts delta (pos.add d) m g it with ⟨b, gg, ii⟩
    have hggwf : WF gg ts := by
      have hP : WF (path_iter check ts delta (pos.add d) m g it).2.1 ts := pathIter_WF hw
      rw [hcall] at hP
      exact hP
    cases b
    · rw [pathLoop_cons_false hcall]
      exact ihr (fun e he => H e (List.mem_cons_of_mem d he)) gg ii hggwf
    · rw [pathLoop_cons_true hcall]

lemma pathIterC_eq_aux : ∀ k : Nat, ∀ (check : Bool) (ts : Coords) (delta : List Coords)
    (pos : Coords) (moves : Int) (g : Grid) (it : Option Int),
    (ts.x * ts.y + 1 - moves).toNat = k → WF g ts →
    path_iterC check ts delta pos moves g it =
      some (path_iter check ts delta pos moves g it) := by
  intro k
  induction k using Nat.strong_induction_on with
  | _ k ih =>
    intro check ts delta pos moves g it hk hw
    by_cases h1 : moves ≥ ts.x * ts.y
    · rw [path_iterC, dif_pos h1, pathIter_done h1]
    · rw [path_iterC, dif_neg h1]
      rw [is_availableC_eq hw pos, Option.some_bind]
      by_cases h2 : is_available g ts pos = false
      · rw [dif_pos h2, pathIter_unavail h1 h2]
      · rw [dif_neg h2]
        have h2' : is_available g ts pos = true := bool_true_of_not_false h2
        have hpb : InB ts pos := ((is_available_iff g ts pos).mp h2').1
        have hw1 : WF (setCell g pos (moves + 1)) ts := WF_setCell pos (moves + 1) hw
        rw [setCellC_eq (moves + 1) hw hpb, Option.some_bind]
        rw [prune_testC_eq hw1, Option.some_bind]
        by_cases h3 : (check && prune_test ts delta pos (moves + 1)
            (setCell g pos (moves + 1))) = true
        · rw [dif_pos h3, pathIter_prune h1 h2' h3]
          rw [setCellC_eq 0 hw1 hpb, Option.some_bind]
        · rw [dif_neg h3, pathIter_go h1 h2' h3]
          apply pathLoopC_eq hpb delta ?_ _ _ hw1
          intro d hd g' it' hw'
          exact ih ((ts.x * ts.y + 1 - (moves + 1)).toNat) (by omega) check ts delta
            (pos.add d) (moves + 1) g' it' rfl hw'

lemma pathIterC_eq {check : Bool} {ts : Coords} {delta : List Coords} {pos : Coords}
    {moves : Int} {g : Grid} {it : Option Int} (hw : WF g ts) :
    path_iterC check ts delta pos moves g it =
      some (path_iter check ts delta pos moves g it) :=
  pathIterC_eq_aux _ check ts delta pos moves g it rfl hw

lemma innerResetC_eq {ts : Coords} (i : Nat) (hi : (i : Int) < ts.y) :
    ∀ (l : List Nat) (acc : Grid), WF acc ts → (∀ j ∈ l, (j : Int) < ts.x) →
    l.foldlM (fun acc2 (j : Nat) => setCellC acc2 ⟨(j : Int), (i : Int)⟩ 0) acc =
      some (l.foldl (fun acc2 (j : Nat) => setCell acc2 ⟨(j : Int), (i : Int)⟩ 0) acc) := by
  intro l
  induction l with
  | nil =>
    intro acc hw hj
    rfl
  | cons j rest ihl =>
    intro acc hw hj
    rw [List.foldlM_cons, List.foldl_cons]
    have hjb : InB ts ⟨(j : Int), (i : Int)⟩ :=
      ⟨Int.natCast_nonneg j, hj j (List.mem_cons_self j rest), Int.natCast_nonneg i, hi⟩
    rw [setCellC_eq 0 hw hjb, Option.bind_eq_bind, Option.some_bind]
    exact ihl _ (WF_setCell _ 0 hw) (fun e he => hj e (List.mem_cons_of_mem j he))

lemma resetGridC_eq {g : Grid} {ts : Coords} (hw : WF g ts) :
    resetGridC g ts = some (resetGrid g ts) := by
  unfold resetGridC resetGrid
  have hgen : ∀ (l : List Nat) (acc : Grid), WF acc ts → (∀ i ∈ l, (i : Int) < ts.y) →
      l.foldlM (fun acc (i : Nat) =>
        (List.range ts.x.toNat).foldlM
          (fun acc2 (j : Nat) => setCellC acc2 ⟨(j : Int), (i : Int)⟩ 0) acc) acc =
      some (l.foldl (fun acc (i : Nat) =>
        (List.range ts.x.toNat).foldl
          (fun acc2 (j : Nat) => setCell acc2 ⟨(j : Int), (i : Int)⟩ 0) acc) acc) := by
    intro l
    induction l with
    | nil =>
      intro acc hwa hl
      rfl
    | cons i rest ihl =>
      intro acc hwa hl
      rw [List.foldlM_cons, List.foldl_cons]
      rw [innerResetC_eq i (hl i (List.mem_cons_self i rest)) (List.range ts.x.toNat) acc hwa
        (fun j hj => by
          have := List.mem_range.mp hj
          omega)]
      rw [Option.bind_eq_bind, Option.some_bind]
      have hwa1 : WF ((List.range ts.x.toNat).foldl
          (fun acc2 (j : Nat) => setCell acc2 ⟨(j : Int), (i : Int)⟩ 0) acc) ts := by
        have hstep : ∀ (l2 : List Nat) (a : Grid), WF a ts →
            WF (l2.foldl (fun acc2 (j : Nat) => setCell acc2 ⟨(j : Int), (i : Int)⟩ 0) a) ts := by
          intro l2
          induction l2 with
          | nil => intro a ha; exact ha
          | cons j r2 ih2 =>
            intro a ha
            rw [List.foldl_cons]
            exact ih2 _ (WF_setCell _ 0 ha)
        exact hstep _ acc hwa
      exact ihl _ hwa1 (fun e he => hl e (List.mem_cons_of_mem i he))
  apply hgen (List.range ts.y.toNat) g hw
  intro i hi
  have := List.mem_range.mp hi
  omega

lemma pathFindC_eq {check : Bool} {ts : Coords} {delta : List Coords} {pos : Coords}
    {g : Grid} {it : Option Int} (hw : WF g ts) :
    path_findC check ts delta pos g it = some (path_find check ts delta pos g it) := by
  unfold path_findC path_find
  rw [resetGridC_eq hw, Option.some_bind]
  apply pathIterC_eq
  rw [resetGrid_eq_zerosGrid hw]
  exact WF_zerosGrid ts

/-! ## Claim theorems -/

/-- Claim C1 (amended): for every board dimensions, start position, and
move table closed under negation of its offsets (as the default knight
table is), running `path_find` with the look-ahead pruning step enabled
and with it disabled returns the same found/not-found result and, when a
tour is found, the same grid of move numbers. -/
theorem claim_C1 (ts : Coords) (delta : List Coords) (pos : Coords) (g : Grid)
    (it1 it2 : Option Int) (hsym : SymTable delta) (hw : WF g ts) :
    (path_find true ts delta pos g it1).1 = (path_find false ts delta pos g it2).1 ∧
    (path_find true ts delta pos g it1).2.1 = (path_find false ts delta pos g it2).2.1 := by
  unfold path_find
  rw [resetGrid_eq_zerosGrid hw]
  exact pruneEq_aux _ ts delta pos 0 (zerosGrid ts) _ _ hsym rfl (countInv_zeros ts)

/-- Witness for C1: the amended claim applied to the knight table on a 1x1
board. -/
theorem claim_C1_witness :
    SymTable knightTable ∧ WF [[0]] ⟨1, 1⟩ ∧
    ((path_find true ⟨1, 1⟩ knightTable ⟨0, 0⟩ [[0]] none).1 =
      (path_find false ⟨1, 1⟩ knightTable ⟨0, 0⟩ [[0]] none).1 ∧
     (path_find true ⟨1, 1⟩ knightTable ⟨0, 0⟩ [[0]] none).2.1 =
      (path_find false ⟨1, 1⟩ knightTable ⟨0, 0⟩ [[0]] none).2.1) :=
  ⟨by unfold SymTable Coords.neg; decide, by unfold WF; decide,
   claim_C1 ⟨1, 1⟩ knightTable ⟨0, 0⟩ [[0]] none none
     (by unfold SymTable Coords.neg; decide) (by unfold WF; decide)⟩

/-- Counterexample for C1 as stated: on a 1x3 board with the asymmetric
move table [(0,-2), (0,-1)] starting from (0,2), the search with pruning
enabled finds no tour while the search with pruning disabled finds one, so
enabling the pruning step changes the found/not-found result. -/
theorem claim_C1_counterexample :
    (path_find true ⟨1, 3⟩ [⟨0, -2⟩, ⟨0, -1⟩] ⟨0, 2⟩ [[0], [0], [0]] none).1 = false ∧
    (path_find false ⟨1, 3⟩ [⟨0, -2⟩, ⟨0, -1⟩] ⟨0, 2⟩ [[0], [0], [0]] none).1 = true := by
  have hr : resetGrid [[0], [0], [0]] ⟨1, 3⟩ = zerosGrid ⟨1, 3⟩ :=
    resetGrid_eq_zerosGrid (by unfold WF; decide)
  have hz : zerosGrid ⟨1, 3⟩ = [[0], [0], [0]] := by decide
  constructor
  · simp [path_find, hr, hz, path_iter, path_loop, is_available, is_blocked, prune_test,
      getCell, setCell, Coords.add]
  · simp [path_find, hr, hz, path_iter, path_loop, is_available, is_blocked, prune_test,
      getCell, setCell, Coords.add]

/-- Claim C2 (amended): for every board dimensions with at least one cell,
start position, and non-empty move table, if `path_find` returns success
then the final grid holds each move number 1..width*height exactly once,
the start cell holds 1, and consecutive move numbers are one move-table
offset apart: the grid describes a Hamiltonian path from the start. -/
theorem claim_C2 (check : Bool) (ts : Coords) (delta : List Coords) (pos : Coords)
    (g : Grid) (it : Option Int) (hw : WF g ts) (htot : 1 ≤ ts.x * ts.y)
    (hs : (path_find check ts delta pos g it).1 = true) :
    HamPath (path_find check ts delta pos g it).2.1 ts delta pos :=
  path_find_success_ham hw htot hs

/-- Witness for C2: a successful 1x1 search yields a Hamiltonian numbering. -/
theorem claim_C2_witness :
    WF [[0]] ⟨1, 1⟩ ∧ 1 ≤ (⟨1, 1⟩ : Coords).x * (⟨1, 1⟩ : Coords).y ∧
    (path_find true ⟨1, 1⟩ knightTable ⟨0, 0⟩ [[0]] none).1 = true ∧
    HamPath (path_find true ⟨1, 1⟩ knightTable ⟨0, 0⟩ [[0]] none).2.1 ⟨1, 1⟩
      knightTable ⟨0, 0⟩ := by
  have p1 : WF [[0]] ⟨1, 1⟩ := by unfold WF; decide
  have p2 : 1 ≤ (⟨1, 1⟩ : Coords).x * (⟨1, 1⟩ : Coords).y := by norm_num
  have p3 : (path_find true ⟨1, 1⟩ knightTable ⟨0, 0⟩ [[0]] none).1 = true := by
    have hr : resetGrid [[0]] ⟨1, 1⟩ = zerosGrid ⟨1, 1⟩ := resetGrid_eq_zerosGrid p1
    have hz : zerosGrid ⟨1, 1⟩ = [[0]] := by decide
    simp [path_find, hr, hz, path_iter, path_loop, is_available, is_blocked, prune_test,
      getCell, setCell, Coords.add, knightTable]
  exact ⟨p1, p2, p3, claim_C2 true ⟨1, 1⟩ knightTable ⟨0, 0⟩ [[0]] none p1 p2 p3⟩

/-- Counterexample for C2 as stated: on a 0x0 board `path_find` succeeds
immediately, yet no cell holds move number 1 -- in particular the start
cell does not -- so the unconditional "the start cell holds 1" part of the
claim fails for boards with no cells. -/
theorem claim_C2_counterexample :
    (path_find true ⟨0, 0⟩ knightTable ⟨0, 0⟩ [] none).1 = true ∧
    getCell (path_find true ⟨0, 0⟩ knightTable ⟨0, 0⟩ [] none).2.1 ⟨0, 0⟩ = 0 := by
  constructor
  · unfold path_find
    rw [pathIter_done (by norm_num)]
  · unfold path_find
    rw [pathIter_done (by norm_num)]
    decide

/-- Claim C3: on failure `path_find` leaves the grid entirely zero (equal
to the freshly reset grid), and every failing call of the recursive step
returns exactly the grid it was given, including the pruning-triggered
early exit. -/
theorem claim_C3 (check : Bool) (ts : Coords) (delta : List Coords) (pos : Coords)
    (g : Grid) (it : Option Int) (hw : WF g ts) :
    ((path_find check ts delta pos g it).1 = false →
      (path_find check ts delta pos g it).2.1 = zerosGrid ts) ∧
    (∀ (pos2 : Coords) (moves : Int) (g3 g4 : Grid) (it3 it4 : Option Int),
      path_iter check ts delta pos2 moves g3 it3 = (false, g4, it4) → g4 = g3) :=
  ⟨fun h => path_find_fail_zeros hw h,
   fun _ _ _ _ _ _ h => pathIter_restore h⟩

/-- Witness for C3: the claim applied to a 1x1 board. -/
theorem claim_C3_witness :
    WF [[0]] ⟨1, 1⟩ ∧
    (((path_find true ⟨1, 1⟩ knightTable ⟨0, 0⟩ [[0]] none).1 = false →
      (path_find true ⟨1, 1⟩ knightTable ⟨0, 0⟩ [[0]] none).2.1 = zerosGrid ⟨1, 1⟩) ∧
     (∀ (pos2 : Coords) (moves : Int) (g3 g4 : Grid) (it3 it4 : Option Int),
       path_iter true ⟨1, 1⟩ knightTable pos2 moves g3 it3 = (false, g4, it4) → g4 = g3)) :=
  ⟨by unfold WF; decide,
   claim_C3 true ⟨1, 1⟩ knightTable ⟨0, 0⟩ [[0]] none (by unfold WF; decide)⟩

/-- Claim C4 (amended): in a frame of the recursive step that has marked
its candidate cell, the pruning check runs only while
`movesSoFar + 1 < width*height - 1` (at least two cells still to fill): in
that case, an available move-table neighbour that is boxed in makes the
frame unmark and fail immediately; when `movesSoFar + 1 ≥ width*height - 1`
no pruning check is performed and the frame proceeds directly to its move
loop. -/
theorem claim_C4 (ts : Coords) (delta : List Coords) (pos : Coords) (moves : Int)
    (g : Grid) (it : Option Int) (h1 : ¬ moves ≥ ts.x * ts.y)
    (h2 : is_available g ts pos = true) :
    ((moves + 1 < ts.x * ts.y - 1 →
      ∀ d ∈ delta, is_available (setCell g pos (moves + 1)) ts (pos.add d) = true →
        is_blocked (setCell g pos (moves + 1)) ts delta (pos.add d) = true →
        path_iter true ts delta pos moves g it = (false, g, it.map (fun n => n + 1)))) ∧
    (¬ moves + 1 < ts.x * ts.y - 1 →
      path_iter true ts delta pos moves g it =
        path_loop true ts delta pos (moves + 1) delta (setCell g pos (moves + 1))
          (it.map (fun n => n + 1))) := by
  constructor
  · intro hlt d hd ha hb
    have h3 : (true && prune_test ts delta pos (moves + 1) (setCell g pos (moves + 1))) = true := by
      rw [prune_test_of hlt hd ha hb]
      rfl
    rw [pathIter_prune h1 h2 h3, setCell_setCell,
      setCell_restore ((is_available_iff g ts pos).mp h2).2]
  · intro hge
    have h3 : ¬ (true && prune_test ts delta pos (moves + 1)
        (setCell g pos (moves + 1))) = true := by
      unfold prune_test
      rw [decide_eq_false hge, Bool.false_and, Bool.true_and]
      exact Bool.false_ne_true
    exact pathIter_go h1 h2 h3

/-- Witness for C4: the amended claim applied to a 2x1 board with the
one-dimensional two-offset table. -/
theorem claim_C4_witness :
    (¬ (0 : Int) ≥ (⟨2, 1⟩ : Coords).x * (⟨2, 1⟩ : Coords).y) ∧
    is_available [[0, 0]] ⟨2, 1⟩ ⟨0, 0⟩ = true ∧
    (((0 : Int) + 1 < (⟨2, 1⟩ : Coords).x * (⟨2, 1⟩ : Coords).y - 1 →
      ∀ d ∈ [(⟨1, 0⟩ : Coords), ⟨-1, 0⟩],
        is_available (setCell [[0, 0]] ⟨0, 0⟩ (0 + 1)) ⟨2, 1⟩ (Coords.add ⟨0, 0⟩ d) = true →
        is_blocked (setCell [[0, 0]] ⟨0, 0⟩ (0 + 1)) ⟨2, 1⟩ [⟨1, 0⟩, ⟨-1, 0⟩]
          (Coords.add ⟨0, 0⟩ d) = true →
        path_iter true ⟨2, 1⟩ [⟨1, 0⟩, ⟨-1, 0⟩] ⟨0, 0⟩ 0 [[0, 0]] none =
          (false, [[0, 0]], Option.map (fun n => n + 1) none))) ∧
    (¬ (0 : Int) + 1 < (⟨2, 1⟩ : Coords).x * (⟨2, 1⟩ : Coords).y - 1 →
      path_iter true ⟨2, 1⟩ [⟨1, 0⟩, ⟨-1, 0⟩] ⟨0, 0⟩ 0 [[0, 0]] none =
        path_loop true ⟨2, 1⟩ [⟨1, 0⟩, ⟨-1, 0⟩] ⟨0, 0⟩ (0 + 1)
          [⟨1, 0⟩, ⟨-1, 0⟩] (setCell [[0, 0]] ⟨0, 0⟩ (0 + 1))
          (Option.map (fun n => n + 1) none)) := by
  have p1 : ¬ (0 : Int) ≥ (⟨2, 1⟩ : Coords).x * (⟨2, 1⟩ : Coords).y := by norm_num
  have p2 : is_available [[0, 0]] ⟨2, 1⟩ ⟨0, 0⟩ = true := by decide
  exact ⟨p1, p2, claim_C4 ⟨2, 1⟩ [⟨1, 0⟩, ⟨-1, 0⟩] ⟨0, 0⟩ 0 [[0, 0]] none p1 p2⟩

/-- Counterexample for C4 as stated: on a 2x1 board with table
[(1,0), (-1,0)], the root frame has `movesSoFar + 1 = 1 < 2 = width*height`
and its available neighbour (1,0) is boxed in after the mark, so the claim
as stated demands the frame fail immediately; the code skips the check
(because 1 is not < width*height - 1 = 1) and the frame in fact succeeds. -/
theorem claim_C4_counterexample :
    ((0 : Int) + 1 < (⟨2, 1⟩ : Coords).x * (⟨2, 1⟩ : Coords).y) ∧
    is_available (setCell [[0, 0]] ⟨0, 0⟩ (0 + 1)) ⟨2, 1⟩
      (Coords.add ⟨0, 0⟩ ⟨1, 0⟩) = true ∧
    is_blocked (setCell [[0, 0]] ⟨0, 0⟩ (0 + 1)) ⟨2, 1⟩ [⟨1, 0⟩, ⟨-1, 0⟩]
      (Coords.add ⟨0, 0⟩ ⟨1, 0⟩) = true ∧
    (path_iter true ⟨2, 1⟩ [⟨1, 0⟩, ⟨-1, 0⟩] ⟨0, 0⟩ 0 [[0, 0]] none).1 = true := by
  refine ⟨by norm_num, by decide, by decide, ?_⟩
  simp [path_iter, path_loop, is_available, is_blocked, prune_test, getCell, setCell,
    Coords.add]

/-- Claim C5: every state at which the engine invokes the recursive step
during a search from `start` satisfies the simple-path invariant (markers
1..m on pairwise distinct cells, nothing else marked, consecutive markers
one offset apart); the invariant is preserved by the mark the frame
performs, and every failing frame exits with exactly its entry grid
(unmark restores the state). -/
theorem claim_C5 (check : Bool) (ts : Coords) (delta : List Coords) (start : Coords)
    (g : Grid) (m : Int) (q : Coords) (hr : ReachState ts delta start g m q) :
    SearchInv ts delta g m ∧
    (¬ m ≥ ts.x * ts.y → is_available g ts q = true →
      SearchInv ts delta (setCell g q (m + 1)) (m + 1)) ∧
    (∀ it g2 it2, path_iter check ts delta q m g it = (false, g2, it2) → g2 = g) := by
  obtain ⟨hinv, hnx⟩ := reachState_inv hr
  exact ⟨hinv, fun _ hq => inv_mark hinv hq hnx,
    fun it g2 it2 h => pathIter_restore h⟩

/-- Witness for C5: the claim applied to the initial state of a 1x1
search. -/
theorem claim_C5_witness :
    ReachState ⟨1, 1⟩ knightTable ⟨0, 0⟩ (zerosGrid ⟨1, 1⟩) 0 ⟨0, 0⟩ ∧
    SearchInv ⟨1, 1⟩ knightTable (zerosGrid ⟨1, 1⟩) 0 :=
  ⟨ReachState.init,
   (claim_C5 true ⟨1, 1⟩ knightTable ⟨0, 0⟩ (zerosGrid ⟨1, 1⟩) 0 ⟨0, 0⟩ ReachState.init).1⟩

/-- Claim C6 (amended): `path_find` succeeds immediately whenever
`width*height ≤ 0` (any start), and whenever `width*height = 1` with an
in-bounds start and a non-empty move table; an out-of-bounds start on a
one-cell board makes it fail instead. -/
theorem claim_C6 :
    (∀ (check : Bool) (ts : Coords) (delta : List Coords) (pos : Coords) (g : Grid)
      (it : Option Int), ts.x * ts.y ≤ 0 → (path_find check ts delta pos g it).1 = true) ∧
    (∀ (check : Bool) (ts : Coords) (delta : List Coords) (pos : Coords) (g : Grid)
      (it : Option Int), WF g ts → ts.x * ts.y = 1 → InB ts pos → delta ≠ [] →
      (path_find check ts delta pos g it).1 = true) := by
  constructor
  · intro check ts delta pos g it htot
    unfold path_find
    rw [pathIter_done (by omega)]
  · intro check ts delta pos g it hw htot hpos hne
    unfold path_find
    rw [resetGrid_eq_zerosGrid hw]
    have h1 : ¬ (0 : Int) ≥ ts.x * ts.y := by omega
    have h2 : is_available (zerosGrid ts) ts pos = true :=
      avail_of_inB_zero hpos (getCell_zerosGrid ts pos)
    have h3 : ¬ (check && prune_test ts delta pos (0 + 1)
        (setCell (zerosGrid ts) pos (0 + 1))) = true := by
      unfold prune_test
      rw [decide_eq_false (by omega : ¬ (0 : Int) + 1 < ts.x * ts.y - 1), Bool.false_and,
        Bool.and_false]
      exact Bool.false_ne_true
    rw [pathIter_go h1 h2 h3]
    rcases delta with _ | ⟨d, rest⟩
    · exact absurd rfl hne
    · rw [pathLoop_cons_true (pathIter_done (by omega))]

/-- Witness for C6: both parts of the amended claim at concrete boards. -/
theorem claim_C6_witness :
    (path_find true ⟨0, 0⟩ knightTable ⟨0, 0⟩ [] none).1 = true ∧
    (path_find true ⟨1, 1⟩ knightTable ⟨0, 0⟩ [[0]] none).1 = true :=
  ⟨claim_C6.1 true ⟨0, 0⟩ knightTable ⟨0, 0⟩ [] none (by norm_num),
   claim_C6.2 true ⟨1, 1⟩ knightTable ⟨0, 0⟩ [[0]] none (by unfold WF; decide)
     (by norm_num) (by unfold InB; norm_num) (by simp [knightTable])⟩

/-- Counterexample for C6 as stated: on a 1x1 board with the out-of-bounds
start (1,0), `path_find` returns failure, contradicting the claim that it
succeeds for every start position, in-bounds or not. -/
theorem claim_C6_counterexample :
    (path_find true ⟨1, 1⟩ knightTable ⟨1, 0⟩ [[0]] none).1 = false := by
  have hr : resetGrid [[0]] ⟨1, 1⟩ = zerosGrid ⟨1, 1⟩ :=
    resetGrid_eq_zerosGrid (by unfold WF; decide)
  have hz : zerosGrid ⟨1, 1⟩ = [[0]] := by decide
  simp [path_find, hr, hz, path_iter, is_available, getCell]

/-- Claim C7: running `path_find` a second time with identical arguments on
the grid left by the first run (each call performing its own reset) returns
the identical result and the identical final grid. -/
theorem claim_C7 (check : Bool) (ts : Coords) (delta : List Coords) (pos : Coords)
    (g : Grid) (it : Option Int) (hw : WF g ts) :
    path_find check ts delta pos (path_find check ts delta pos g it).2.1 it =
      path_find check ts delta pos g it :=
  path_find_grid_irrelevant (path_find_WF hw) hw

/-- Witness for C7: idempotence on a 1x1 board. -/
theorem claim_C7_witness :
    WF [[0]] ⟨1, 1⟩ ∧
    path_find true ⟨1, 1⟩ knightTable ⟨0, 0⟩
        (path_find true ⟨1, 1⟩ knightTable ⟨0, 0⟩ [[0]] none).2.1 none =
      path_find true ⟨1, 1⟩ knightTable ⟨0, 0⟩ [[0]] none :=
  ⟨by unfold WF; decide,
   claim_C7 true ⟨1, 1⟩ knightTable ⟨0, 0⟩ [[0]] none (by unfold WF; decide)⟩

/-- Claim C8: `path_find` run with the move table in reversed order returns
the same found/not-found result as with the original order, for every board
dimensions, start position and move table. -/
theorem claim_C8 (check : Bool) (ts : Coords) (delta : List Coords) (pos : Coords)
    (g : Grid) (it : Option Int) :
    (path_find check ts delta pos g it).1 = (path_find check ts delta.reverse pos g it).1 := by
  unfold path_find
  have hmem : ∀ d : Coords, d ∈ delta ↔ d ∈ delta.reverse :=
    fun d => (List.mem_reverse).symm
  rcases Bool.eq_false_or_eq_true
    ((path_iter check ts delta pos 0 (resetGrid g ts) (it.map (fun _ => 0))).1) with ht | hf
  · rw [ht]
    exact ((found_eq_completes _).mpr (completes_perm hmem
      ((found_eq_completes _).mp ht))).symm
  · rw [hf]
    symm
    apply bool_false_of_not_true
    intro hc
    have := (found_eq_completes (it.map (fun _ => 0))).mpr (completes_perm
      (fun d => (hmem d).symm) ((found_eq_completes _).mp hc))
    rw [hf] at this
    exact Bool.noConfusion this

/-- Claim C9: `is_blocked` returns true exactly when no position one
move-table offset away from `pos` is available (in bounds and unvisited);
being a pure query, it leaves the grid untouched. -/
theorem claim_C9 (g : Grid) (ts : Coords) (delta : List Coords) (p : Coords) :
    is_blocked g ts delta p = true ↔
      ∀ d ∈ delta, ¬ (InB ts (p.add d) ∧ getCell g (p.add d) = 0) := by
  rw [is_blocked_iff]
  apply forall_congr'
  intro d
  apply imp_congr_right
  intro _
  exact is_available_false_iff g ts (p.add d)

/-- Claim C10: under the caller contract that the grid has the stated
dimensions, the checked (Option-valued) versions of `is_available`,
`is_blocked`, `path_iter` and `path_find` -- in which every out-of-range
access yields `none` -- return `some` of the corresponding total results:
the out-of-range branch of every grid access is unreachable. -/
theorem claim_C10 (check : Bool) (ts : Coords) (delta : List Coords) (pos : Coords)
    (moves : Int) (g : Grid) (it : Option Int) (hw : WF g ts) :
    (∀ p, is_availableC g ts p = some (is_available g ts p)) ∧
    (∀ p, is_blockedC g ts delta p = some (is_blocked g ts delta p)) ∧
    path_iterC check ts delta pos moves g it = some (path_iter check ts delta pos moves g it) ∧
    path_findC check ts delta pos g it = some (path_find check ts delta pos g it) :=
  ⟨is_availableC_eq hw, fun p => is_blockedC_eq hw delta p, pathIterC_eq hw, pathFindC_eq hw⟩

/-- Witness for C10: the agreement applied on a 1x1 board. -/
theorem claim_C10_witness :
    WF [[0]] ⟨1, 1⟩ ∧
    ((∀ p, is_availableC [[0]] ⟨1, 1⟩ p = some (is_available [[0]] ⟨1, 1⟩ p)) ∧
     (∀ p, is_blockedC [[0]] ⟨1, 1⟩ knightTable p =
       some (is_blocked [[0]] ⟨1, 1⟩ knightTable p)) ∧
     path_iterC true ⟨1, 1⟩ knightTable ⟨0, 0⟩ 0 [[0]] none =
       some (path_iter true ⟨1, 1⟩ knightTable ⟨0, 0⟩ 0 [[0]] none) ∧
     path_findC true ⟨1, 1⟩ knightTable ⟨0, 0⟩ [[0]] none =
       some (path_find true ⟨1, 1⟩ knightTable ⟨0, 0⟩ [[0]] none)) :=
  ⟨by unfold WF; decide,
   claim_C10 true ⟨1, 1⟩ knightTable ⟨0, 0⟩ 0 [[0]] none (by unfold WF; decide)⟩
